import Mathlib

/-
Verification of the AlgorithmVisualizer graph-algorithm core.

Shallow embedding of the Python sources:
  algorithms/dijkstra.py, bfs.py, dfs.py, prim.py, kruskal.py,
  bellman_ford.py, a_star.py and grafo.py, config.py.

Modelling conventions, used consistently below:
  * an adjacency matrix is a list of rows of integers (Python ints);
  * float('inf') distances are `Option Int` with `none` as infinity
    (all finite distances in these algorithms are integer sums of weights);
  * a Python dict with int keys is an association list `List (Nat × α)`,
    updated in place when the key exists and appended otherwise, exactly
    like insertion-ordered dicts;
  * `heapq` is modelled by its observable behaviour: `heappop` removes and
    returns the lexicographically least `(priority, node)` tuple of the
    multiset of pushed entries, `heappush` adds one entry;
  * Python while-loops that are not structurally recursive run on an
    explicit fuel that is chosen large enough; every property proved about
    emitted steps is established for all fuel values;
  * A-star priorities are `math.hypot` floats; they are modelled as real
    numbers, and every concrete evaluation below only involves values on
    which IEEE doubles are exact (square roots of perfect squares).
-/

/-- Adjacency matrix exactly as held by `GrafoActivo.matriz`: a list of rows
of integer weights. -/
abbrev Matriz := List (List Int)

/-- Entry `m[u][v]` of an adjacency matrix; out-of-range reads give 0 and are
only ever used under in-range hypotheses, matching numpy indexing on the
square matrices the algorithms receive. -/
def wt (m : Matriz) (u v : Nat) : Int := (m.getD u []).getD v 0

/-- Number of nodes `ga.N = len(matriz)`. -/
def nNodes (m : Matriz) : Nat := m.length

/-- Dict update `d[k] = v` on an insertion-ordered association list: replace
the binding in place when the key is present, append otherwise. -/
def dictSet (d : List (Nat × α)) (k : Nat) (v : α) : List (Nat × α) :=
  if (d.lookup k).isSome then
    d.map (fun p => if p.1 = k then (k, v) else p)
  else
    d ++ [(k, v)]

/-- Lexicographic order on `(priority, node)` heap tuples, as Python compares
int tuples. -/
def menorPar (a b : Int × Nat) : Bool :=
  a.1 < b.1 || (a.1 == b.1 && a.2 ≤ b.2)

/-- `heapq.heappop` on an integer-priority heap: remove and return the least
tuple, or `none` when the heap is empty. -/
def popMin : List (Int × Nat) → Option ((Int × Nat) × List (Int × Nat))
  | [] => none
  | x :: xs =>
    match popMin xs with
    | none => some (x, [])
    | some (m, resto) =>
      if menorPar x m then some (x, xs) else some (m, x :: resto)

/-- Comparison `x < dist[v]` where `dist[v]` may be `float('inf')`. -/
def ltOpt (x : Int) : Option Int → Bool
  | none => true
  | some d => x < d

-- ==================================================================
-- Dijkstra (algorithms/dijkstra.py)
-- ==================================================================

/-- One snapshot appended by `dijkstra_pasos`: current node, visited set,
copy of the distance list and of the parent dict. -/
structure PasoDijkstra where
  actual : Nat
  visitados : List Nat
  dist : List (Option Int)
  padre : List (Nat × Option Nat)
deriving Repr, DecidableEq

/-- Working state of the Dijkstra loop. -/
structure EstadoDijkstra where
  pq : List (Int × Nat)
  dist : List (Option Int)
  padre : List (Nat × Option Nat)
  visitado : List Nat
  pasos : List PasoDijkstra
deriving Repr

/-- Relaxation of the single edge `u → v` inside the neighbour loop of
`dijkstra_pasos`: on `matriz[u][v] > 0` and strict improvement, update
`dist`, overwrite `padre[v]` and push the new entry. -/
def dijkstraRelajaV (m : Matriz) (u v : Nat) (costo : Int)
    (s : EstadoDijkstra) : EstadoDijkstra :=
  if wt m u v > 0 then
    let nuevo := costo + wt m u v
    if ltOpt nuevo (s.dist.getD v none) then
      { s with dist := s.dist.set v (some nuevo),
               padre := dictSet s.padre v (some u),
               pq := s.pq ++ [(nuevo, v)] }
    else s
  else s

/-- The neighbour loop `for v in range(ga.N)` of `dijkstra_pasos`. -/
def dijkstraRelaja (m : Matriz) (u : Nat) (costo : Int) :
    List Nat → EstadoDijkstra → EstadoDijkstra
  | [], s => s
  | v :: vs, s => dijkstraRelaja m u costo vs (dijkstraRelajaV m u v costo s)

/-- The `while pq:` loop of `dijkstra_pasos`, on fuel. -/
def dijkstraLoop (m : Matriz) (objetivo : Nat) :
    Nat → EstadoDijkstra → EstadoDijkstra
  | 0, s => s
  | fuel + 1, s =>
    match popMin s.pq with
    | none => s
    | some ((costo, u), resto) =>
      if u ∈ s.visitado then
        dijkstraLoop m objetivo fuel { s with pq := resto }
      else
        let vis := s.visitado ++ [u]
        let s2 : EstadoDijkstra :=
          { pq := resto, dist := s.dist, padre := s.padre, visitado := vis,
            pasos := s.pasos ++ [⟨u, vis, s.dist, s.padre⟩] }
        if u = objetivo then s2
        else
          dijkstraLoop m objetivo fuel
            (dijkstraRelaja m u costo (List.range (nNodes m)) s2)

/-- Path reconstruction loop shared by dijkstra, a_star and bellman_ford:
walk parent links from the goal, then reverse.  The accumulator builds the
reversed list directly; the fuel bounds the walk by the number of dict
entries, which the acyclic parent maps of the algorithms never exhaust. -/
def reconstruye (padre : List (Nat × Option Nat)) :
    Nat → Option Nat → List Nat → List Nat
  | 0, _, acc => acc
  | _ + 1, none, acc => acc
  | fuel + 1, some n, acc =>
    match padre.lookup n with
    | none => acc
    | some p => reconstruye padre fuel p (n :: acc)

/-- Initial state of `dijkstra_pasos`. -/
def dijkstraInit (m : Matriz) (inicio : Nat) : EstadoDijkstra :=
  { pq := [(0, inicio)],
    dist := (((List.range (nNodes m)).map fun _ => (none : Option Int))).set
      inicio (some 0),
    padre := [(inicio, none)],
    visitado := [],
    pasos := [] }

/-- `dijkstra_pasos(ga, inicio, objetivo)`: returns `(pasos, camino, dist)`.
The fuel bounds the number of heap pops; at most one initial entry plus one
push per examined edge per visited node can ever enter the heap. -/
def dijkstra_pasos (m : Matriz) (inicio objetivo : Nat) :
    List PasoDijkstra × List Nat × List (Option Int) :=
  let s := dijkstraLoop m objetivo (nNodes m * nNodes m + nNodes m + 2)
    (dijkstraInit m inicio)
  (s.pasos, reconstruye s.padre (s.padre.length + 1) (some objetivo) [], s.dist)

-- ==================================================================
-- Sample graphs (config.py, GRAFOS_EJEMPLO)
-- ==================================================================

-- ==================================================================
-- Prim (algorithms/prim.py)
-- ==================================================================

/-- One snapshot appended by `prim_pasos`: newly added node, sorted list of
included nodes, MST edge list so far.  MST edges are `(padre[u], u)` pairs
whose first component is the Python int stored in the parent array. -/
structure PasoPrim where
  actual : Nat
  visitados : List Nat
  mst : List (Int × Nat)
deriving Repr, DecidableEq

/-- Working state of the Prim loop. -/
structure EstadoPrim where
  heap : List (Int × Nat)
  visitado : List Bool
  padre : List Int
  mst : List (Int × Nat)
  pasos : List PasoPrim
deriving Repr

/-- `matriz_a_lista_ady(m)` from grafo.py: per node, the `(neighbour,
weight)` pairs of the nonzero entries, in ascending neighbour order. -/
def matriz_a_lista_ady (m : Matriz) : List (List (Nat × Int)) :=
  (List.range (nNodes m)).map fun i =>
    (List.range (nNodes m)).filterMap fun j =>
      if wt m i j ≠ 0 then some (j, wt m i j) else none

/-- The push loop of `prim_pasos`: for every not-yet-included neighbour,
overwrite its parent and push the edge.  The unconditional overwrite of
`padre[v]` is exactly what the source does. -/
def primEmpuja (u : Nat) : List (Nat × Int) → EstadoPrim → EstadoPrim
  | [], s => s
  | (v, w) :: vs, s =>
    if s.visitado.getD v false then primEmpuja u vs s
    else
      primEmpuja u vs
        { s with padre := s.padre.set v (Int.ofNat u),
                 heap := s.heap ++ [(w, v)] }

/-- The `while heap:` loop of `prim_pasos`, on fuel. -/
def primLoop (m : Matriz) : Nat → EstadoPrim → EstadoPrim
  | 0, s => s
  | fuel + 1, s =>
    match popMin s.heap with
    | none => s
    | some ((_, u), resto) =>
      if s.visitado.getD u false then primLoop m fuel { s with heap := resto }
      else
        let visitado2 := s.visitado.set u true
        let p := s.padre.getD u (-1)
        let mst2 := if p ≠ -1 then s.mst ++ [(p, u)] else s.mst
        let paso : PasoPrim :=
          ⟨u, (List.range (nNodes m)).filter (fun i => visitado2.getD i false),
            mst2⟩
        primLoop m fuel
          (primEmpuja u ((matriz_a_lista_ady m).getD u [])
            { heap := resto, visitado := visitado2, padre := s.padre,
              mst := mst2, pasos := s.pasos ++ [paso] })

/-- `prim_pasos(ga)`: list of snapshots; implicit start is node 0. -/
def prim_pasos (m : Matriz) : List PasoPrim :=
  (primLoop m (nNodes m * nNodes m + nNodes m + 2)
    { heap := [(0, 0)],
      visitado := (List.range (nNodes m)).map fun _ => false,
      padre := (List.range (nNodes m)).map fun _ => (-1 : Int),
      mst := [], pasos := [] }).pasos

-- ==================================================================
-- Kruskal (algorithms/kruskal.py)
-- ==================================================================

/-- One snapshot appended by `kruskal_pasos`. -/
structure PasoKruskal where
  edge : Nat × Nat
  w : Int
  ok : Bool
  mst : List (Nat × Nat)
deriving Repr, DecidableEq

/-- Insert an edge into a weight-sorted list after all entries of smaller or
equal weight. -/
def insertaPorPeso (x : Nat × Nat × Int) :
    List (Nat × Nat × Int) → List (Nat × Nat × Int)
  | [] => [x]
  | y :: ys => if x.2.2 < y.2.2 then x :: y :: ys else y :: insertaPorPeso x ys

/-- Stable ascending sort by weight, modelling Python `sorted(...,
key=lambda x: x[2])`: processing left to right and inserting after equals
preserves the original order of equal-weight edges. -/
def ordenaPorPeso (l : List (Nat × Nat × Int)) : List (Nat × Nat × Int) :=
  l.foldl (fun acc x => insertaPorPeso x acc) []

/-- The sorted upper-triangle edge list built at the top of
`kruskal_pasos`. -/
def aristasKruskal (m : Matriz) : List (Nat × Nat × Int) :=
  ordenaPorPeso
    ((List.range (nNodes m)).flatMap fun i =>
      (List.range (nNodes m)).filterMap fun j =>
        if i < j ∧ wt m i j > 0 then some (i, j, wt m i j) else none)

/-- Recursive union-find `find` with path compression, on fuel; parent
arrays of the union-find forest are acyclic, so the fuel (one per node) is
never exhausted in actual runs.  Returns the root and the compressed parent
array. -/
def ufFind : Nat → List Nat → Nat → Nat × List Nat
  | 0, uf, x => (x, uf)
  | fuel + 1, uf, x =>
    let p := uf.getD x x
    if p = x then (x, uf)
    else
      let r := ufFind fuel uf p
      (r.1, r.2.set x r.1)

/-- The main edge loop of `kruskal_pasos`. -/
def kruskalGo (m : Matriz) :
    List (Nat × Nat × Int) → List Nat → List (Nat × Nat) →
    List PasoKruskal → List PasoKruskal
  | [], _, _, pasos => pasos
  | (u, v, w) :: es, uf, mst, pasos =>
    let fu := ufFind uf.length uf u
    let fv := ufFind fu.2.length fu.2 v
    let aceptada := fu.1 ≠ fv.1
    let uf3 := if aceptada then fv.2.set fu.1 fv.1 else fv.2
    let mst2 := if aceptada then mst ++ [(u, v)] else mst
    kruskalGo m es uf3 mst2 (pasos ++ [⟨(u, v), w, decide aceptada, mst2⟩])

/-- `kruskal_pasos(ga)`: one snapshot per examined edge. -/
def kruskal_pasos (m : Matriz) : List PasoKruskal :=
  kruskalGo m (aristasKruskal m) (List.range (nNodes m)) [] []

-- ==================================================================
-- BFS (algorithms/bfs.py)
-- ==================================================================

/-- One snapshot appended by `bfs_pasos`. -/
structure PasoBfs where
  actual : Nat
  visitados : List Nat
  padre : List (Nat × Option Nat)
deriving Repr, DecidableEq

/-- Working state of the BFS loop. -/
structure EstadoBfs where
  visitado : List Nat
  cola : List Nat
  padre : List (Nat × Option Nat)
  pasos : List PasoBfs
deriving Repr

/-- The neighbour loop of `bfs_pasos`: enqueue every unvisited neighbour,
and record its parent only on first discovery (`if v not in padre`). -/
def bfsVecinos (m : Matriz) (u : Nat) : List Nat → EstadoBfs → EstadoBfs
  | [], s => s
  | v :: vs, s =>
    if wt m u v > 0 ∧ v ∉ s.visitado then
      let padre2 :=
        if (s.padre.lookup v).isSome then s.padre else s.padre ++ [(v, some u)]
      bfsVecinos m u vs { s with padre := padre2, cola := s.cola ++ [v] }
    else bfsVecinos m u vs s

/-- The `while cola:` loop of `bfs_pasos`, on fuel. -/
def bfsLoop (m : Matriz) : Nat → EstadoBfs → EstadoBfs
  | 0, s => s
  | fuel + 1, s =>
    match s.cola with
    | [] => s
    | u :: resto =>
      if u ∈ s.visitado then bfsLoop m fuel { s with cola := resto }
      else
        let vis := s.visitado ++ [u]
        bfsLoop m fuel
          (bfsVecinos m u (List.range (nNodes m))
            { visitado := vis, cola := resto, padre := s.padre,
              pasos := s.pasos ++ [⟨u, vis, s.padre⟩] })

/-- `bfs_pasos(ga, inicio)` for an in-range start index. -/
def bfs_pasos (m : Matriz) (inicio : Nat) : List PasoBfs :=
  (bfsLoop m (nNodes m * nNodes m + nNodes m + 2)
    { visitado := [], cola := [inicio], padre := [(inicio, none)],
      pasos := [] }).pasos

-- ==================================================================
-- DFS (algorithms/dfs.py)
-- ==================================================================

/-- One snapshot appended by `dfs_pasos`. -/
structure PasoDfs where
  actual : Nat
  visitados : List Nat
  padre : List (Nat × Option Nat)
deriving Repr, DecidableEq

/-- Working state of the recursive DFS. -/
structure EstadoDfs where
  visitado : List Nat
  padre : List (Nat × Option Nat)
  pasos : List PasoDfs
deriving Repr

/-- The recursive `_dfs(u)` of `dfs_pasos`: mark `u` visited, snapshot,
then fold the neighbour loop over the ascending indices, descending into a
neighbour exactly when its visited test (re-evaluated after every previous
descent, as in the source) lets it through.  The fuel bounds the recursion
depth; each descent visits a fresh node, so a fuel of N+1 is never
exhausted. -/
def dfsGo (m : Matriz) : Nat → Nat → EstadoDfs → EstadoDfs
  | 0, _, s => s
  | fuel + 1, u, s =>
    (List.range (nNodes m)).foldl
      (fun st v =>
        if wt m u v > 0 ∧ v ∉ st.visitado then
          dfsGo m fuel v { st with padre := dictSet st.padre v (some u) }
        else st)
      { visitado := s.visitado ++ [u], padre := s.padre,
        pasos := s.pasos ++ [⟨u, s.visitado ++ [u], s.padre⟩] }

/-- `dfs_pasos(ga, inicio)`. -/
def dfs_pasos (m : Matriz) (inicio : Nat) : List PasoDfs :=
  (dfsGo m (nNodes m + 1) inicio
    { visitado := [], padre := [(inicio, none)], pasos := [] }).pasos

-- ==================================================================
-- Bellman-Ford (algorithms/bellman_ford.py)
-- ==================================================================

/-- `matriz_a_aristas(m)` from grafo.py: every nonzero entry as a directed
edge, both directions included, in row-major order. -/
def matriz_a_aristas (m : Matriz) : List (Nat × Nat × Int) :=
  (List.range (nNodes m)).flatMap fun i =>
    (List.range (nNodes m)).filterMap fun j =>
      if wt m i j ≠ 0 then some (i, j, wt m i j) else none

/-- One snapshot appended by `bellman_ford_pasos`: either a successful
relaxation with its full detail (the dicts `cambio: True/False` of the
source are the constructor), or the single early-convergence marker. -/
inductive PasoBellman where
  | relajacion (iter : Nat) (dist : List (Option Int))
      (padre : List (Nat × Option Nat)) (arista : Nat × Nat) (peso : Int)
      (distAnterior : Option Int) (distNueva : Option Int)
  | sinCambios (iter : Nat) (dist : List (Option Int))
      (padre : List (Nat × Option Nat))
deriving Repr, DecidableEq

/-- Working state of the Bellman-Ford loops. -/
structure EstadoBellman where
  dist : List (Option Int)
  padre : List (Nat × Option Nat)
  cambio : Bool
  pasos : List PasoBellman
deriving Repr

/-- The inner `for u, v, peso in grafo:` loop of one outer iteration
(0-based index `i`): relax each edge, appending one snapshot per successful
relaxation. -/
def bellmanRelaja (i : Nat) :
    List (Nat × Nat × Int) → EstadoBellman → EstadoBellman
  | [], s => s
  | (u, v, peso) :: es, s =>
    let distAnterior := s.dist.getD v none
    match s.dist.getD u none with
    | none => bellmanRelaja i es s
    | some du =>
      if ltOpt (du + peso) distAnterior then
        let dist2 := s.dist.set v (some (du + peso))
        let padre2 := dictSet s.padre v (some u)
        bellmanRelaja i es
          { dist := dist2, padre := padre2, cambio := true,
            pasos := s.pasos ++
              [.relajacion (i + 1) dist2 padre2 (u, v) peso distAnterior
                (some (du + peso))] }
      else bellmanRelaja i es s

/-- The outer `for i in range(ga.N - 1)` loop with early termination: when
an iteration makes no change, append the `sin_cambios` snapshot and stop. -/
def bellmanIter (aristas : List (Nat × Nat × Int)) :
    List Nat → EstadoBellman → EstadoBellman
  | [], s => s
  | i :: resto, s =>
    let s1 := bellmanRelaja i aristas { s with cambio := false }
    if s1.cambio then bellmanIter aristas resto s1
    else { s1 with pasos := s1.pasos ++ [.sinCambios (i + 1) s1.dist s1.padre] }

/-- `bellman_ford_pasos(ga, origen, objetivo)`. -/
def bellman_ford_pasos (m : Matriz) (origen objetivo : Nat) :
    List PasoBellman × List Nat × List (Option Int) :=
  let s := bellmanIter (matriz_a_aristas m) (List.range (nNodes m - 1))
    { dist := (((List.range (nNodes m)).map fun _ => (none : Option Int))).set
        origen (some 0),
      padre := [(origen, none)], cambio := false, pasos := [] }
  (s.pasos, reconstruye s.padre (s.padre.length + 1) (some objetivo) [],
    s.dist)

-- ==================================================================
-- A-star (algorithms/a_star.py)
-- ==================================================================

/-- `math.ceil(math.sqrt(n))` of `generar_coords`; on natural inputs the
float square root and ceiling are exact, so this is the exact ceiling. -/
def columnas (n : Nat) : Nat :=
  if Nat.sqrt n * Nat.sqrt n = n then Nat.sqrt n else Nat.sqrt n + 1

/-- `generar_coords(n)[i]` from grafo.py: the synthetic grid position of
node `i`. -/
def generar_coords (n i : Nat) : Nat × Nat := (i % columnas n, i / columnas n)

/-- The heuristic `h(a, b) = math.hypot(dx, dy)` of `a_star_pasos` over the
synthetic grid, modelled as the exact Euclidean distance; every concrete
run evaluated below only meets values on which the float is exact. -/
noncomputable def hAStar (n a b : Nat) : ℝ :=
  Real.sqrt
    ((((generar_coords n b).1 : ℝ) - ((generar_coords n a).1 : ℝ)) ^ 2 +
      (((generar_coords n b).2 : ℝ) - ((generar_coords n a).2 : ℝ)) ^ 2)

/-- Lexicographic comparison of `(float, node)` heap tuples. -/
noncomputable def menorParR (a b : ℝ × Nat) : Bool :=
  if a.1 < b.1 then true else if a.1 = b.1 ∧ a.2 ≤ b.2 then true else false

/-- `heapq.heappop` on the A-star heap. -/
noncomputable def popMinR : List (ℝ × Nat) → Option ((ℝ × Nat) × List (ℝ × Nat))
  | [] => none
  | x :: xs =>
    match popMinR xs with
    | none => some (x, [])
    | some (mn, resto) =>
      if menorParR x mn then some (x, xs) else some (mn, x :: resto)

/-- One snapshot appended by `a_star_pasos`. -/
structure PasoAStar where
  actual : Nat
  visitados : List Nat
  g : List (Nat × Int)
  padre : List (Nat × Option Nat)
deriving Repr, DecidableEq

/-- Working state of the A-star loop. -/
structure EstadoAStar where
  pq : List (ℝ × Nat)
  g : List (Nat × Int)
  padre : List (Nat × Option Nat)
  visitado : List Nat
  pasos : List PasoAStar

/-- Relaxation of one neighbour edge in `a_star_pasos`.  `g[u]` is always
present when `u` has been popped (it was set before every push), so the
`getD` default is never taken in a real run. -/
noncomputable def aStarRelajaV (m : Matriz) (objetivo u v : Nat)
    (s : EstadoAStar) : EstadoAStar :=
  if wt m u v > 0 then
    let nuevo := (s.g.lookup u).getD 0 + wt m u v
    if ltOpt nuevo (s.g.lookup v) then
      { s with g := dictSet s.g v nuevo,
               padre := dictSet s.padre v (some u),
               pq := s.pq ++
                 [((nuevo : ℝ) + hAStar (nNodes m) v objetivo, v)] }
    else s
  else s

/-- The neighbour loop `for v in range(ga.N)` of `a_star_pasos`. -/
noncomputable def aStarRelaja (m : Matriz) (objetivo u : Nat) :
    List Nat → EstadoAStar → EstadoAStar
  | [], s => s
  | v :: vs, s => aStarRelaja m objetivo u vs (aStarRelajaV m objetivo u v s)

/-- The `while pq:` loop of `a_star_pasos`, on fuel. -/
noncomputable def aStarLoop (m : Matriz) (objetivo : Nat) :
    Nat → EstadoAStar → EstadoAStar
  | 0, s => s
  | fuel + 1, s =>
    match popMinR s.pq with
    | none => s
    | some ((_, u), resto) =>
      if u ∈ s.visitado then aStarLoop m objetivo fuel { s with pq := resto }
      else
        let vis := s.visitado ++ [u]
        let s2 : EstadoAStar :=
          { pq := resto, g := s.g, padre := s.padre, visitado := vis,
            pasos := s.pasos ++ [⟨u, vis, s.g, s.padre⟩] }
        if u = objetivo then s2
        else
          aStarLoop m objetivo fuel
            (aStarRelaja m objetivo u (List.range (nNodes m)) s2)

/-- `a_star_pasos(ga, inicio, objetivo)`: returns `(pasos, camino, g)`. -/
noncomputable def a_star_pasos (m : Matriz) (inicio objetivo : Nat) :
    List PasoAStar × List Nat × List (Nat × Int) :=
  let s := aStarLoop m objetivo (nNodes m * nNodes m + nNodes m + 2)
    { pq := [(hAStar (nNodes m) inicio objetivo, inicio)], g := [(inicio, 0)],
      padre := [(inicio, none)], visitado := [], pasos := [] }
  (s.pasos, reconstruye s.padre (s.padre.length + 1) (some objetivo) [], s.g)

-- ==================================================================
-- Sample graphs (config.py, GRAFOS_EJEMPLO)
-- ==================================================================

/-- Matrix of "Grafo 2 — 7 nodos" from `config.py`, nodes S,T,U,V,W,X,Y. -/
def grafo2 : Matriz :=
  [[0,  4,  0,  0,  0,  0,  0],
   [4,  0,  8,  0,  0,  0, 11],
   [0,  8,  0,  7,  0,  4,  0],
   [0,  0,  7,  0,  9, 14,  0],
   [0,  0,  0,  9,  0, 10,  0],
   [0,  0,  4, 14, 10,  0,  2],
   [0, 11,  0,  0,  0,  2,  0]]

-- ==================================================================
-- Concrete graphs used as witnesses and counterexamples
-- ==================================================================

/-- Connected triangle with weights 0-1: 1, 0-2: 2, 1-2: 5.  When node 1 is
included, Prim overwrites `padre[2] = 1` although the cheaper frontier edge
(0,2) of weight 2 is already in the heap, so the snapshot that includes
node 2 records the wrong tree edge. -/
def grafoBugPrim : Matriz := [[0, 1, 2], [1, 0, 5], [2, 5, 0]]

/-- Ten-node graph (grid of 4 columns, so node 3 sits three grid units from
node 0 while being one edge of weight 1 away): edges 0-3 weight 1, 0-4
weight 3, 3-4 weight 1.  The heuristic at node 3 towards goal 0 is 3, an
overestimate that makes A-star finalize the goal through the direct edge of
weight 3 before exploring the cheaper path 4-3-0 of weight 2. -/
def grafoAStar : Matriz :=
  [[0, 0, 0, 1, 3, 0, 0, 0, 0, 0],
   [0, 0, 0, 0, 0, 0, 0, 0, 0, 0],
   [0, 0, 0, 0, 0, 0, 0, 0, 0, 0],
   [1, 0, 0, 0, 1, 0, 0, 0, 0, 0],
   [3, 0, 0, 1, 0, 0, 0, 0, 0, 0],
   [0, 0, 0, 0, 0, 0, 0, 0, 0, 0],
   [0, 0, 0, 0, 0, 0, 0, 0, 0, 0],
   [0, 0, 0, 0, 0, 0, 0, 0, 0, 0],
   [0, 0, 0, 0, 0, 0, 0, 0, 0, 0],
   [0, 0, 0, 0, 0, 0, 0, 0, 0, 0]]

/-- Triangle with equal unit weights, used to exercise BFS rediscovery. -/
def grafoTri : Matriz := [[0, 1, 1], [1, 0, 1], [1, 1, 0]]

/-- Two nodes joined by a unit edge. -/
def grafoPar : Matriz := [[0, 1], [1, 0]]

-- ==================================================================
-- Paths and accepted-weight totals
-- ==================================================================

/-- Total weight of a node sequence: the sum of the matrix entries along
consecutive pairs. -/
def pesoCamino (m : Matriz) : List Nat → Int
  | [] => 0
  | [_] => 0
  | u :: v :: resto => wt m u v + pesoCamino m (v :: resto)

/-- The sequence is a genuine walk of the graph from `a` to `b`: nonempty,
starting at `a`, ending at `b`, with every consecutive pair a
positive-weight edge. -/
def esCamino (m : Matriz) (a b : Nat) (l : List Nat) : Prop :=
  l.head? = some a ∧ l.getLast? = some b ∧
    List.Chain' (fun u v => wt m u v > 0) l

/-- Sum of the weights carried by the accepted (`ok = True`) Kruskal
steps. -/
def pesoKruskal (m : Matriz) : Int :=
  ((kruskal_pasos m).filter fun p => p.ok).foldl (fun a p => a + p.w) 0

/-- Sum of the matrix weights of the final `mst` list of `prim_pasos`. -/
def pesoPrim (m : Matriz) : Int :=
  ((((prim_pasos m).getLast?).map fun p => p.mst).getD []).foldl
    (fun a e => a + wt m e.1.toNat e.2) 0

-- ==================================================================
-- GrafoActivo.cargar (grafo.py)
-- ==================================================================

/-- The Python exceptions that the loading paths can surface. -/
inductive PyError where
  | valueError
  | indexError
deriving Repr, DecidableEq

/-- The state `GrafoActivo.cargar` leaves behind on success: matrix, labels,
`N = len(matriz)` and the upper-triangle edge list handed to NetworkX.  The
spring-layout positions are presentation-only and not modelled. -/
structure GrafoModel where
  matriz : Matriz
  nombres : List String
  n : Nat
  aristas : List (String × String × Int)
deriving Repr, DecidableEq

/-- The `i, j` edge loop of `GrafoActivo.cargar`: it reads `matriz[i][j]`
for every `i < j` below `N`, and reads `nombres[i]`, `nombres[j]` when the
entry is positive; any out-of-range read is the IndexError the method would
raise at that point. -/
def cargarAristas (matriz : Matriz) (nombres : List String) :
    List (Nat × Nat) → List (String × String × Int) →
    Except PyError (List (String × String × Int))
  | [], acc => .ok acc
  | (i, j) :: ps, acc =>
    match (matriz.get? i).bind fun fila => fila.get? j with
    | none => .error .indexError
    | some w =>
      if w > 0 then
        match nombres.get? i, nombres.get? j with
        | some a, some b => cargarAristas matriz nombres ps (acc ++ [(a, b, w)])
        | _, _ => .error .indexError
      else cargarAristas matriz nombres ps acc

/-- `GrafoActivo.cargar(matriz, nombres, nombre_grafo)`.  The method
performs no shape validation of its own: `np.array` rejects ragged nested
lists (a ValueError in current numpy), `self.N` is simply the number of
rows, and the only other failures are the incidental IndexErrors of the
edge loop above. -/
def GrafoActivo_cargar (matriz : Matriz) (nombres : List String) :
    Except PyError GrafoModel :=
  if matriz.all fun fila => fila.length = (matriz.headD []).length then
    match cargarAristas matriz nombres
        ((List.range matriz.length).flatMap fun i =>
          (List.range matriz.length).filterMap fun j =>
            if i < j then some (i, j) else none) [] with
    | .ok aristas => .ok ⟨matriz, nombres, matriz.length, aristas⟩
    | .error e => .error e
  else .error .valueError

-- ==================================================================
-- BFS with raw Python int start index (for the call-time error claim)
-- ==================================================================

/-- Python/numpy indexing of a length-`n` sequence by a possibly negative
int: valid on `[-n, n)`, with wraparound for negative indices. -/
def idxPy (n : Nat) (i : Int) : Option Nat :=
  if 0 ≤ i ∧ i < n then some i.toNat
  else if -(n : Int) ≤ i ∧ i < 0 then some (i + n).toNat
  else none

/-- BFS snapshot when the start index is an arbitrary Python int: the queue,
visited set and parent dict hold ints, so a negative start is a key
distinct from its wrapped-around row. -/
structure PasoBfsI where
  actual : Int
  visitados : List Int
  padre : List (Int × Option Int)
deriving Repr, DecidableEq

/-- Working state of the int-indexed BFS. -/
structure EstadoBfsI where
  visitado : List Int
  cola : List Int
  padre : List (Int × Option Int)
  pasos : List PasoBfsI
deriving Repr

/-- The neighbour loop of `bfs_pasos` with the dequeued value `u` used as a
raw index into the matrix: each iteration re-evaluates `ga.matriz[u][v]`,
so an out-of-range `u` raises on the first neighbour. -/
def bfsVecinosI (m : Matriz) (u : Int) :
    List Nat → EstadoBfsI → Except PyError EstadoBfsI
  | [], s => .ok s
  | v :: vs, s =>
    match idxPy (nNodes m) u with
    | none => .error .indexError
    | some ui =>
      if wt m ui v > 0 ∧ (v : Int) ∉ s.visitado then
        let padre2 :=
          if (s.padre.lookup (v : Int)).isSome then s.padre
          else s.padre ++ [((v : Int), some u)]
        bfsVecinosI m u vs { s with padre := padre2, cola := s.cola ++ [(v : Int)] }
      else bfsVecinosI m u vs s

/-- The `while cola:` loop of the int-indexed BFS, on fuel. -/
def bfsLoopI (m : Matriz) : Nat → EstadoBfsI → Except PyError EstadoBfsI
  | 0, s => .ok s
  | fuel + 1, s =>
    match s.cola with
    | [] => .ok s
    | u :: resto =>
      if u ∈ s.visitado then bfsLoopI m fuel { s with cola := resto }
      else
        let vis := s.visitado ++ [u]
        match bfsVecinosI m u (List.range (nNodes m))
            { visitado := vis, cola := resto, padre := s.padre,
              pasos := s.pasos ++ [⟨u, vis, s.padre⟩] } with
        | .error e => .error e
        | .ok s2 => bfsLoopI m fuel s2

/-- `bfs_pasos(ga, inicio)` with the start index taken as a raw Python int:
either the list of steps handed back to the caller, or the exception that
escapes (in which case the local step list is lost and the caller receives
nothing). -/
def bfs_pasos_idx (m : Matriz) (inicio : Int) : Except PyError (List PasoBfsI) :=
  match bfsLoopI m (nNodes m * nNodes m + nNodes m + 2)
      { visitado := [], cola := [inicio], padre := [(inicio, none)],
        pasos := [] } with
  | .ok s => .ok s.pasos
  | .error e => .error e

-- ==================================================================
-- cargar_desde_json (grafo.py)
-- ==================================================================

/-- JSON values as produced by `json.load`.  Numbers are modelled as the
integers the sample data uses; the loader never computes with them. -/
inductive JValue where
  | null
  | bool (b : Bool)
  | num (n : Int)
  | str (s : String)
  | arr (xs : List JValue)
  | obj (campos : List (String × JValue))

mutual

/-- Structural equality on JSON values, modelling Python `==` on the data
the loader compares (the `1 == True` coercion and the order-insensitivity
of dict comparison are approximated structurally; both only affect which
exotic inputs count as already symmetric, never the shape of the
result). -/
def jEq : JValue → JValue → Bool
  | .null, .null => true
  | .bool a, .bool b => a == b
  | .num a, .num b => a == b
  | .str a, .str b => a == b
  | .arr xs, .arr ys => jEqLista xs ys
  | .obj fs, .obj gs => jEqCampos fs gs
  | _, _ => false

/-- Elementwise equality of JSON lists. -/
def jEqLista : List JValue → List JValue → Bool
  | [], [] => true
  | x :: xs, y :: ys => jEq x y && jEqLista xs ys
  | _, _ => false

/-- Entrywise equality of JSON objects. -/
def jEqCampos : List (String × JValue) → List (String × JValue) → Bool
  | [], [] => true
  | (k, x) :: xs, (l, y) :: ys => k == l && jEq x y && jEqCampos xs ys
  | _, _ => false

end

/-- Outcome of `open(ruta)` followed by `json.load(f)`: missing file,
unparsable text, or a parsed value. -/
inductive ArchivoJson where
  | noEncontrado
  | jsonInvalido
  | contenido (v : JValue)

/-- The result triple of `cargar_desde_json`. -/
abbrev SalidaJson := Option JValue × Option JValue × Option String

/-- The exceptions the body of `cargar_desde_json` can raise; all of them
are caught by the blanket `except Exception` handler. -/
inductive ExcepcionPy where
  | typeError
  | keyError
  | indexError
deriving Repr, DecidableEq

/-- A stand-in for `str(e)`: the claim only relies on some string being
returned, not on its text. -/
def mensajeDe : ExcepcionPy → String
  | .typeError => "TypeError"
  | .keyError => "KeyError"
  | .indexError => "IndexError"

/-- Python `len(v)`: defined on sequences, strings and dicts, a TypeError
(modelled as `none`) otherwise. -/
def jLen : JValue → Option Nat
  | .arr xs => some xs.length
  | .str s => some s.length
  | .obj fs => some fs.length
  | _ => none

/-- Python iteration `for x in v`: elements of a list, one-character
strings of a string, the keys of a dict; TypeError otherwise. -/
def jItems : JValue → Option (List JValue)
  | .arr xs => some xs
  | .str s => some (s.toList.map fun c => .str c.toString)
  | .obj fs => some (fs.map fun p => .str p.1)
  | _ => none

/-- Python `v[i]` with an int index as used by the symmetry loop: list
indexing (IndexError out of range), string indexing (one-character string),
dict lookup with an int key (always a KeyError here, JSON object keys are
strings), TypeError otherwise. -/
def jIndexNat (v : JValue) (i : Nat) : Except ExcepcionPy JValue :=
  match v with
  | .arr xs =>
    match xs.get? i with
    | some x => .ok x
    | none => .error .indexError
  | .str s =>
    match s.toList.get? i with
    | some c => .ok (.str c.toString)
    | none => .error .indexError
  | .obj _ => .error .keyError
  | _ => .error .typeError

/-- Python `v[clave]` with a string key: dict lookup (KeyError when
missing), TypeError on anything that is not a dict. -/
def jIndexStr (v : JValue) (clave : String) : Except ExcepcionPy JValue :=
  match v with
  | .obj fs =>
    match fs.lookup clave with
    | some x => .ok x
    | none => .error .keyError
  | _ => .error .typeError

/-- Python `clave in v`: key test on dicts, membership on lists, substring
test on strings, TypeError otherwise. -/
def jContiene (v : JValue) (clave : String) : Except ExcepcionPy Bool :=
  match v with
  | .obj fs => .ok (fs.lookup clave).isSome
  | .arr xs => .ok (xs.any fun x => jEq x (.str clave))
  | .str s => .ok ((s.splitOn clave).length > 1)
  | _ => .error .typeError

/-- Python `v[i] = x` on the row container of the matrix: lists are
mutable, strings are not; the dict case never arises because reading the
same cell already raised. -/
def jSetNat (v : JValue) (i : Nat) (x : JValue) : Except ExcepcionPy JValue :=
  match v with
  | .arr xs => .ok (.arr (xs.set i x))
  | _ => .error .typeError

/-- Python `max(a, b)` as the symmetry fix uses it: defined on two numbers
(booleans count as ints) or two strings, TypeError on mixed or other
operands. -/
def jMax (a b : JValue) : Except ExcepcionPy JValue :=
  match a, b with
  | .num x, .num y => .ok (.num (max x y))
  | .num x, .bool y => .ok (.num (max x (if y then 1 else 0)))
  | .bool x, .num y => .ok (.num (max (if x then 1 else 0) y))
  | .bool x, .bool y => .ok (.bool (x || y))
  | .str x, .str y => .ok (.str (max x y))
  | _, _ => .error .typeError

/-- Read `matriz[i][j]` through the dynamic indexing above. -/
def jGet2 (mz : JValue) (i j : Nat) : Except ExcepcionPy JValue := do
  let fila ← jIndexNat mz i
  jIndexNat fila j

/-- Write `matriz[i][j] = x` through the dynamic indexing above. -/
def jSet2 (mz : JValue) (i j : Nat) (x : JValue) : Except ExcepcionPy JValue := do
  let fila ← jIndexNat mz i
  let fila2 ← jSetNat fila j x
  jSetNat mz i fila2

/-- Python `str(v)`; the exact rendering of composite values is irrelevant,
the loader only uses these strings as node names. -/
def pyStr : JValue → String
  | .null => "None"
  | .bool b => if b then "True" else "False"
  | .num n => toString n
  | .str s => s
  | .arr _ => "lista"
  | .obj _ => "dict"

/-- `data.get(clave, None)` on the dict the loader has in hand. -/
def jGet (v : JValue) (clave : String) : Option JValue :=
  match v with
  | .obj fs => fs.lookup clave
  | _ => none

/-- The row check `len(fila) != n` of format 1, run left to right: the
first row that cannot be measured raises, the first row of the wrong
length triggers the non-square early return (`ok false`). -/
def checaFilas (n : Nat) : List JValue → Except ExcepcionPy Bool
  | [] => .ok true
  | fila :: fs =>
    match jLen fila with
    | none => .error .typeError
    | some l => if l ≠ n then .ok false else checaFilas n fs

/-- The symmetry-forcing double loop of format 1, run cell by cell in
row-major order over the current (already partially updated) matrix. -/
def simetriza : List (Nat × Nat) → JValue → Except ExcepcionPy JValue
  | [], mz => .ok mz
  | (i, j) :: ps, mz => do
    let a ← jGet2 mz i j
    let b ← jGet2 mz j i
    if jEq a b then simetriza ps mz
    else
      let val ← jMax a b
      let mz1 ← jSet2 mz i j val
      let mz2 ← jSet2 mz1 j i val
      simetriza ps mz2

/-- Default node names `chr(65 + i)` for the first 26 nodes, then `Ni`. -/
def nombreDefecto (i : Nat) : String :=
  if i < 26 then (Char.ofNat (65 + i)).toString else "N" ++ toString i

/-- Insert a string into an ascending list. -/
def insertaCadena (x : String) : List String → List String
  | [] => [x]
  | y :: ys => if x < y then x :: y :: ys else y :: insertaCadena x ys

/-- `sorted(list(set(...)))`: deduplicate, then sort ascending. -/
def ordenaCadenas (l : List String) : List String :=
  l.eraseDups.foldl (fun acc x => insertaCadena x acc) []

/-- First pass of format 2: collect `str(a["origen"])` and
`str(a["destino"])` of every edge object, in order. -/
def nombresDeAristas : List JValue → Except ExcepcionPy (List String)
  | [] => .ok []
  | a :: resto => do
    let o ← jIndexStr a "origen"
    let d ← jIndexStr a "destino"
    let rs ← nombresDeAristas resto
    .ok (pyStr o :: pyStr d :: rs)

/-- Set cell `(u, v)` of the matrix under construction in format 2. -/
def ponArista (mz : List (List JValue)) (u v : Nat) (p : JValue) :
    List (List JValue) :=
  mz.set u ((mz.getD u []).set v p)

/-- Second pass of format 2: fill both directions of every edge with its
weight (`a.get("peso", 1)`). -/
def llenaAristas (nombres : List String) :
    List JValue → List (List JValue) → Except ExcepcionPy (List (List JValue))
  | [], mz => .ok mz
  | a :: resto, mz => do
    let o ← jIndexStr a "origen"
    let d ← jIndexStr a "destino"
    let u := nombres.indexOf (pyStr o)
    let v := nombres.indexOf (pyStr d)
    let peso := (jGet a "peso").getD (.num 1)
    llenaAristas nombres resto (ponArista (ponArista mz u v peso) v u peso)

/-- The try-body of `cargar_desde_json` on a parsed JSON value.  Every
`return` of the source is an `ok` triple here; every raised exception is an
`error` that the wrapper below converts into the error triple.  The quoted
strings of the source messages are kept except for quoting. -/
def cuerpoJson (data : JValue) : Except ExcepcionPy SalidaJson := do
  let tieneMatriz ← jContiene data "matriz"
  if tieneMatriz then
    let v ← jIndexStr data "matriz"
    let n ←
      match jLen v with
      | none => Except.error ExcepcionPy.typeError
      | some n => Except.ok n
    let filas ←
      match jItems v with
      | none => Except.error ExcepcionPy.typeError
      | some fs => Except.ok fs
    let cuadrada ← checaFilas n filas
    if cuadrada then
      let mz ← simetriza
        ((List.range n).flatMap fun i => (List.range n).map fun j => (i, j)) v
      let nombres :=
        match jGet data "nombres" with
        | none => none
        | some nom => some nom
      match nombres with
      | none =>
        .ok (some mz, some (.arr ((List.range n).map fun i =>
          .str (nombreDefecto i))), none)
      | some nom =>
        match jLen nom with
        | none => .error .typeError
        | some l =>
          if l ≠ n then
            .ok (some mz, some (.arr ((List.range n).map fun i =>
              .str (nombreDefecto i))), none)
          else .ok (some mz, some nom, none)
    else .ok (none, none, some "La matriz no es cuadrada")
  else
    let tieneAristas ← jContiene data "aristas"
    if tieneAristas then
      let va ← jIndexStr data "aristas"
      let items ←
        match jItems va with
        | none => Except.error ExcepcionPy.typeError
        | some xs => Except.ok xs
      let recogidos ← nombresDeAristas items
      let nombres := ordenaCadenas recogidos
      let n := nombres.length
      let mz ← llenaAristas nombres items
        ((List.range n).map fun _ => (List.range n).map fun _ => JValue.num 0)
      .ok (some (.arr (mz.map .arr)), some (.arr (nombres.map .str)), none)
    else .ok (none, none, some "JSON debe contener matriz o aristas")

/-- `cargar_desde_json(ruta)`: the `except` clauses catch the file and
parse failures and `except Exception` catches everything the body can
raise, each producing the error triple. -/
def cargar_desde_json (archivo : ArchivoJson) : SalidaJson :=
  match archivo with
  | .noEncontrado => (none, none, some "Archivo no encontrado")
  | .jsonInvalido => (none, none, some "JSON invalido")
  | .contenido data =>
    match cuerpoJson data with
    | .ok r => r
    | .error e => (none, none, some (mensajeDe e))

/-- Shape of every result of `cargar_desde_json`: a full success triple or
a pure error triple, nothing partial. -/
def formaSalida : SalidaJson → Prop
  | (some _, some _, none) => True
  | (none, none, some _) => True
  | _ => False

-- ==================================================================
-- Step predicates used by the claim statements
-- ==================================================================

/-- The later snapshot's visited set adds exactly the snapshot's own
current node to the earlier one. -/
def creceVisita (prevVis : List Nat) (actual : Nat) (vis : List Nat) : Prop :=
  actual ∉ prevVis ∧ ∀ x, x ∈ vis ↔ x = actual ∨ x ∈ prevVis

/-- Relation between consecutive BFS snapshots: the later parent dict
extends the earlier one, and every new binding points at the earlier
snapshot's current node along a real edge. -/
def relPadreBfs (m : Matriz) (p q : PasoBfs) : Prop :=
  ∃ t, q.padre = p.padre ++ t ∧
    ∀ e ∈ t, e.2 = some p.actual ∧ wt m p.actual e.1 > 0

/-- Loop invariant of the BFS parent development: emitted snapshots form a
`relPadreBfs` chain and the working dict extends the last snapshot only by
discoveries from that snapshot's node. -/
def invPadreBfs (m : Matriz) (s : EstadoBfs) : Prop :=
  List.Chain' (relPadreBfs m) s.pasos ∧
  ∀ ult ∈ s.pasos.getLast?, ∃ t, s.padre = ult.padre ++ t ∧
    ∀ e ∈ t, e.2 = some ult.actual ∧ wt m ult.actual e.1 > 0

/-- Whether a Bellman-Ford snapshot is the convergence marker. -/
def esSinCambios : PasoBellman → Bool
  | .sinCambios _ _ _ => true
  | _ => false

/-- Iteration index (1-based, as emitted) of a Bellman-Ford snapshot. -/
def iterDe : PasoBellman → Nat
  | .relajacion i _ _ _ _ _ _ => i
  | .sinCambios i _ _ => i


/-- Per-algorithm relations between consecutive snapshots: the later
visited set is the earlier one plus exactly the later current node. -/
def relVisBfs (p q : PasoBfs) : Prop :=
  creceVisita p.visitados q.actual q.visitados

/-- Last emitted BFS visited set, empty before the first snapshot. -/
def ultimaVisBfs (ps : List PasoBfs) : List Nat :=
  ((ps.getLast?).map fun p => p.visitados).getD []

/-- Snapshot growth relation for Dijkstra. -/
def relVisDijkstra (p q : PasoDijkstra) : Prop :=
  creceVisita p.visitados q.actual q.visitados

/-- Last emitted Dijkstra visited set. -/
def ultimaVisDijkstra (ps : List PasoDijkstra) : List Nat :=
  ((ps.getLast?).map fun p => p.visitados).getD []

/-- Snapshot growth relation for A-star. -/
def relVisAStar (p q : PasoAStar) : Prop :=
  creceVisita p.visitados q.actual q.visitados

/-- Last emitted A-star visited set. -/
def ultimaVisAStar (ps : List PasoAStar) : List Nat :=
  ((ps.getLast?).map fun p => p.visitados).getD []

/-- Snapshot growth relation for DFS. -/
def relVisDfs (p q : PasoDfs) : Prop :=
  creceVisita p.visitados q.actual q.visitados

/-- Last emitted DFS visited set. -/
def ultimaVisDfs (ps : List PasoDfs) : List Nat :=
  ((ps.getLast?).map fun p => p.visitados).getD []

/-- Snapshot growth relation for Prim. -/
def relVisPrim (p q : PasoPrim) : Prop :=
  creceVisita p.visitados q.actual q.visitados

/-- Last emitted Prim visited set. -/
def ultimaVisPrim (ps : List PasoPrim) : List Nat :=
  ((ps.getLast?).map fun p => p.visitados).getD []

/-- Relation between consecutive Kruskal snapshots: the later MST list is
the earlier one extended by the later edge exactly when it was accepted. -/
def relMstKruskal (p q : PasoKruskal) : Prop :=
  q.mst = if q.ok then p.mst ++ [q.edge] else p.mst

/-- Last emitted Kruskal MST list. -/
def ultimaMst (ps : List PasoKruskal) : List (Nat × Nat) :=
  ((ps.getLast?).map fun p => p.mst).getD []

/-- Realizability invariant of the Dijkstra state: every heap priority and
every finite tentative distance is the weight of an actual walk from the
start to the corresponding node. -/
def distsRealizables (m : Matriz) (inicio : Nat) (s : EstadoDijkstra) : Prop :=
  (∀ e ∈ s.pq, ∃ l, esCamino m inicio e.2 l ∧ pesoCamino m l = e.1) ∧
  (∀ v d, s.dist.getD v none = some d →
    ∃ l, esCamino m inicio v l ∧ pesoCamino m l = d)

/-- Realizability invariant of the A-star state: every finite `g` value is
the weight of an actual walk from the start, and every queued node has a
`g` value. -/
def gRealizable (m : Matriz) (inicio : Nat) (s : EstadoAStar) : Prop :=
  (∀ v c, s.g.lookup v = some c →
    ∃ l, esCamino m inicio v l ∧ pesoCamino m l = c) ∧
  (∀ e ∈ s.pq, (s.g.lookup e.2).isSome)

/-- The A-star state on `grafoAStar` (start 4, goal 0) after the first pop
and its relaxations, written with the exact cast shapes the run produces. -/
noncomputable def estadoMedio : EstadoAStar :=
  { pq := [(((3 : Int) : ℝ) + hAStar 10 0 0, 0),
      (((1 : Int) : ℝ) + hAStar 10 3 0, 3)],
    g := [(4, 0), (0, 3), (3, 1)],
    padre := [(4, none), (0, some 4), (3, some 4)],
    visitado := [4],
    pasos := [⟨4, [4], [(4, 0)], [(4, none)]⟩] }

/-- Per-step internal coherence of a Bellman-Ford snapshot. -/
def pasoCoherente (m : Matriz) (p : PasoBellman) : Prop :=
  match p with
  | .relajacion iter dist padre a peso dAnt dNueva =>
      1 ≤ iter ∧ iter ≤ nNodes m - 1 ∧
      (a.1, a.2, peso) ∈ matriz_a_aristas m ∧
      dist.getD a.2 none = dNueva ∧
      padre.lookup a.2 = some (some a.1) ∧
      (∃ du : Int, dNueva = some (du + peso) ∧ ltOpt (du + peso) dAnt = true)
  | .sinCambios iter _ _ => 1 ≤ iter ∧ iter ≤ nNodes m - 1

-- ==================================================================
-- Theorems
-- ==================================================================

/-- C1: on the bundled 7-node sample graph, Dijkstra from S (0) to W (4)
reports the total cost 26, not the 21 the claim states: the sample matrix
has its weight-2 edge between X and Y, so no cost-21 route to W exists. -/
theorem c1_contraejemplo :
    (dijkstra_pasos grafo2 0 4).2.2.getD 4 none = some 26 ∧
      ¬ (dijkstra_pasos grafo2 0 4).2.2.getD 4 none = some 21 := by
  decide

/-- C1 (amended): on the bundled 7-node sample graph, Dijkstra from S (0)
to W (4) returns exactly the path S, T, U, X, W with reported total cost
dist[W] = 26. -/
theorem c1_camino_costo :
    (dijkstra_pasos grafo2 0 4).2.1 = [0, 1, 2, 5, 4] ∧
      (dijkstra_pasos grafo2 0 4).2.2.getD 4 none = some 26 := by
  decide

/-- C2: on the connected triangle `grafoBugPrim`, the step that includes
node 2 appends the edge (1, 2) of weight 5, although the pop that caused
the inclusion carried priority 2 (the frontier edge (0, 2)): the
unconditional `padre[v] = u` overwrite loses the cheaper parent, so the
recorded edge weight differs from the popped priority. -/
theorem c2_prim_arista_errada :
    prim_pasos grafoBugPrim =
      [⟨0, [0], []⟩, ⟨1, [0, 1], [((0 : Int), 1)]⟩,
        ⟨2, [0, 1, 2], [((0 : Int), 1), ((1 : Int), 2)]⟩] ∧
      wt grafoBugPrim 1 2 = 5 ∧ wt grafoBugPrim 0 2 = 2 := by
  decide

/-- C3: on the connected triangle `grafoBugPrim`, Kruskal accepts the two
spanning edges of total weight 3 while the final `mst` of `prim_pasos` has
total weight 6, so the claimed weight equality fails on the code. -/
theorem c3_pesos_difieren :
    pesoKruskal grafoBugPrim = 3 ∧ pesoPrim grafoBugPrim = 6 ∧
      ((kruskal_pasos grafoBugPrim).filter fun p => p.ok).length = 2 := by
  decide

/-- C8: a 2-by-3 rectangular (non-square) matrix together with a single
label loads without any error: `GrafoActivo.cargar` performs no shape
validation, so the claimed ShapeError never arises and a model with
N = 2 is produced. -/
theorem c8_contraejemplo :
    GrafoActivo_cargar [[0, 0, 0], [0, 0, 0]] ["A"] =
      .ok ⟨[[0, 0, 0], [0, 0, 0]], ["A"], 2, []⟩ := rfl

/-- C9: the out-of-range start index -1 does not fail: Python negative
indexing wraps it around, and `bfs_pasos` returns a complete trace whose
step records the raw value -1. -/
theorem c9_contraejemplo :
    bfs_pasos_idx [[0]] (-1) =
      .ok [⟨-1, [-1], [((-1 : Int), none)]⟩] := rfl

/-- Looking a key up in an extended association list is stable when the key
is already bound: the first binding wins. -/
theorem lookup_append_some {α : Type} {d t : List (Nat × α)} {k : Nat} {p : α}
    (h : d.lookup k = some p) : (d ++ t).lookup k = some p := by
  induction d with
  | nil => simp at h
  | cons e d ih =>
    obtain ⟨k2, v2⟩ := e
    rw [List.cons_append]
    by_cases hk : k = k2
    · simp only [List.lookup_cons, hk, beq_self_eq_true] at h ⊢
      exact h
    · simp only [List.lookup_cons, beq_false_of_ne hk] at h ⊢
      exact ih h

/-- Looking up an unbound key in an extended association list continues in
the extension. -/
theorem lookup_append_none {α : Type} {d t : List (Nat × α)} {k : Nat}
    (h : d.lookup k = none) : (d ++ t).lookup k = t.lookup k := by
  induction d with
  | nil => simp
  | cons e d ih =>
    obtain ⟨k2, v2⟩ := e
    rw [List.cons_append]
    by_cases hk : k = k2
    · simp only [List.lookup_cons, hk, beq_self_eq_true] at h
      exact absurd h (by simp)
    · simp only [List.lookup_cons, beq_false_of_ne hk] at h ⊢
      exact ih h

/-- A successful lookup names an entry of the list. -/
theorem mem_of_lookup_eq {α : Type} {t : List (Nat × α)} {k : Nat} {p : α}
    (h : t.lookup k = some p) : (k, p) ∈ t := by
  induction t with
  | nil => simp at h
  | cons e t ih =>
    obtain ⟨k2, v2⟩ := e
    by_cases hk : k = k2
    · simp only [List.lookup_cons, hk, beq_self_eq_true, Option.some.injEq] at h
      subst hk
      subst h
      exact List.mem_cons_self _ _
    · simp only [List.lookup_cons, beq_false_of_ne hk] at h
      exact List.mem_cons_of_mem _ (ih h)

/-- The BFS neighbour loop leaves steps and visited set untouched and only
appends parent bindings that point at the processed node along real
edges. -/
theorem bfsVecinos_spec (m : Matriz) (u : Nat) (vs : List Nat) :
    ∀ s : EstadoBfs,
      (bfsVecinos m u vs s).pasos = s.pasos ∧
      (bfsVecinos m u vs s).visitado = s.visitado ∧
      ∃ t, (bfsVecinos m u vs s).padre = s.padre ++ t ∧
        ∀ e ∈ t, e.2 = some u ∧ wt m u e.1 > 0 := by
  induction vs with
  | nil => exact fun s => ⟨rfl, rfl, ⟨[], (List.append_nil _).symm, by simp⟩⟩
  | cons v vs ih =>
    intro s
    rw [bfsVecinos]
    by_cases hg : wt m u v > 0 ∧ v ∉ s.visitado
    · rw [if_pos hg]
      by_cases hl : (s.padre.lookup v).isSome
      · rw [if_pos hl]
        obtain ⟨hp, hv, t, ht, hbr⟩ := ih _
        exact ⟨hp, hv, ⟨t, ht, hbr⟩⟩
      · rw [if_neg hl]
        obtain ⟨hp, hv, t, ht, hbr⟩ := ih _
        refine ⟨hp, hv, ⟨(v, some u) :: t, ?_, ?_⟩⟩
        · rw [ht]
          simp
        · intro e he
          rcases List.mem_cons.mp he with he | he
          · subst he
            exact ⟨rfl, hg.1⟩
          · exact hbr e he
    · rw [if_neg hg]
      exact ih _

/-- The BFS main loop preserves the parent invariant. -/
theorem bfsLoop_invPadre (m : Matriz) (fuel : Nat) :
    ∀ s : EstadoBfs, invPadreBfs m s → invPadreBfs m (bfsLoop m fuel s) := by
  induction fuel with
  | zero => exact fun s h => h
  | succ fuel ih =>
    intro s hs
    rw [bfsLoop]
    split
    · exact hs
    · rename_i u resto heq
      by_cases hu : u ∈ s.visitado
      · rw [if_pos hu]
        exact ih _ hs
      · rw [if_neg hu]
        apply ih
        obtain ⟨hp, hv, t, ht, hbr⟩ := bfsVecinos_spec m u (List.range (nNodes m)) _
        constructor
        · rw [hp]
          rw [List.chain'_append]
          refine ⟨hs.1, List.chain'_singleton _, ?_⟩
          intro x hx y hy
          simp only [List.head?_cons, Option.mem_def, Option.some.injEq] at hy
          subst hy
          obtain ⟨t2, ht2, hbr2⟩ := hs.2 x hx
          exact ⟨t2, ht2, hbr2⟩
        · intro ult hult
          rw [hp] at hult
          rw [List.getLast?_concat] at hult
          simp only [Option.mem_def, Option.some.injEq] at hult
          subst hult
          exact ⟨t, ht, hbr⟩

/-- The snapshots of a BFS run form a `relPadreBfs` chain. -/
theorem bfs_chain (m : Matriz) (inicio : Nat) :
    List.Chain' (relPadreBfs m) (bfs_pasos m inicio) := by
  have h := bfsLoop_invPadre m (nNodes m * nNodes m + nNodes m + 2)
    { visitado := [], cola := [inicio], padre := [(inicio, none)], pasos := [] }
    ⟨List.chain'_nil, by simp⟩
  exact h.1

/-- Along a BFS chain, any later snapshot's parent dict extends any earlier
one. -/
theorem bfs_chain_trans (m : Matriz) {l : List PasoBfs}
    (hc : List.Chain' (relPadreBfs m) l) :
    ∀ i j (hij : i ≤ j) (hj : j < l.length),
      ∃ t, (l.get ⟨j, hj⟩).padre =
        (l.get ⟨i, Nat.lt_of_le_of_lt hij hj⟩).padre ++ t := by
  intro i j hij
  induction j, hij using Nat.le_induction with
  | base => intro hj; exact ⟨[], by simp⟩
  | succ j2 hij2 ih =>
    intro hj
    obtain ⟨t1, ht1⟩ := ih (Nat.lt_of_succ_lt hj)
    have hrel := List.chain'_iff_get.mp hc j2 (by omega)
    obtain ⟨t2, ht2, _⟩ := hrel
    refine ⟨t1 ++ t2, ?_⟩
    have hj2 : (l.get ⟨j2 + 1, hj⟩).padre = (l.get ⟨j2, by omega⟩).padre ++ t2 := ht2
    rw [hj2, ht1, List.append_assoc]

/-- C6: in every `bfs_pasos` run, a parent binding visible in any snapshot
persists unchanged in every later snapshot, and a binding that first
appears between consecutive snapshots points at the earlier snapshot's
current node along a real edge: parents are fixed at first discovery and
never change, even when the node is re-enqueued later. -/
theorem c6_bfs_padre_estable (m : Matriz) (inicio : Nat) :
    (∀ i j (hij : i ≤ j) (hj : j < (bfs_pasos m inicio).length)
      (v : Nat) (p : Option Nat),
      ((bfs_pasos m inicio).get ⟨i, Nat.lt_of_le_of_lt hij hj⟩).padre.lookup v
          = some p →
      ((bfs_pasos m inicio).get ⟨j, hj⟩).padre.lookup v = some p) ∧
    (∀ i (hi : i + 1 < (bfs_pasos m inicio).length) (v : Nat) (p : Option Nat),
      ((bfs_pasos m inicio).get ⟨i + 1, hi⟩).padre.lookup v = some p →
      ((bfs_pasos m inicio).get ⟨i, Nat.lt_of_succ_lt hi⟩).padre.lookup v
          = none →
      p = some (((bfs_pasos m inicio).get ⟨i, Nat.lt_of_succ_lt hi⟩).actual) ∧
        wt m (((bfs_pasos m inicio).get ⟨i, Nat.lt_of_succ_lt hi⟩).actual) v
          > 0) := by
  constructor
  · intro i j hij hj v p hv
    obtain ⟨t, ht⟩ := bfs_chain_trans m (bfs_chain m inicio) i j hij hj
    rw [ht]
    exact lookup_append_some hv
  · intro i hi v p hv1 hv0
    have hrel := List.chain'_iff_get.mp (bfs_chain m inicio) i (by omega)
    obtain ⟨t, ht, hbr⟩ := hrel
    have ht2 : ((bfs_pasos m inicio).get ⟨i + 1, hi⟩).padre =
        ((bfs_pasos m inicio).get ⟨i, Nat.lt_of_succ_lt hi⟩).padre ++ t := ht
    rw [ht2, lookup_append_none hv0] at hv1
    have hmem := mem_of_lookup_eq hv1
    exact ⟨(hbr _ hmem).1, (hbr _ hmem).2⟩

/-- Witness for C6 on the unit triangle: node 1 is discovered from node 0
in the first snapshot and its binding persists to the last snapshot. -/
theorem c6_bfs_padre_estable_witness :
    ((bfs_pasos grafoTri 0).get ⟨2, by decide⟩).padre.lookup 1
        = some (some 0) ∧
      (some 0 = some (((bfs_pasos grafoTri 0).get ⟨0, by decide⟩).actual) ∧
        wt grafoTri (((bfs_pasos grafoTri 0).get ⟨0, by decide⟩).actual) 1
          > 0) :=
  ⟨(c6_bfs_padre_estable grafoTri 0).1 1 2 (by decide) (by decide) 1 (some 0)
      (by decide),
    (c6_bfs_padre_estable grafoTri 0).2 0 (by decide) 1 (some 0) (by decide)
      (by decide)⟩

/-- getD after set at the written index. -/
theorem getD_set_self {α : Type} {l : List α} {u : Nat} (h : u < l.length)
    (a d : α) : (l.set u a).getD u d = a := by
  rw [List.getD_eq_getElem?_getD, List.getElem?_set_self (by simpa using h)]
  rfl

/-- getD after set at a different index. -/
theorem getD_set_ne {α : Type} {l : List α} {u i : Nat} (h : i ≠ u)
    (a d : α) : (l.set u a).getD i d = l.getD i d := by
  rw [List.getD_eq_getElem?_getD, List.getElem?_set_ne (by omega),
    ← List.getD_eq_getElem?_getD]

/-- Appending a fresh element grows the visited set by exactly that
element. -/
theorem creceVisita_append {vis : List Nat} {u : Nat} (h : u ∉ vis) :
    creceVisita vis u (vis ++ [u]) := by
  refine ⟨h, fun x => ?_⟩
  simp [List.mem_append, or_comm]

/-- The popped heap entry is an element, and the rest is a subset. -/
theorem popMin_mem :
    ∀ {l : List (Int × Nat)} {x : Int × Nat} {resto : List (Int × Nat)},
      popMin l = some (x, resto) → x ∈ l ∧ ∀ y ∈ resto, y ∈ l := by
  intro l
  induction l with
  | nil => intro x resto h; simp [popMin] at h
  | cons a as ih =>
    intro x resto h
    rw [popMin] at h
    cases hm : popMin as with
    | none =>
      rw [hm] at h
      simp only [Option.some.injEq, Prod.mk.injEq] at h
      obtain ⟨hx, hr⟩ := h
      subst hx; subst hr
      exact ⟨List.mem_cons_self _ _, by simp⟩
    | some par =>
      obtain ⟨mn, rs⟩ := par
      rw [hm] at h
      replace h : (if menorPar a mn then some (a, as) else some (mn, a :: rs))
          = some (x, resto) := h
      by_cases hcmp : menorPar a mn
      · rw [if_pos hcmp] at h
        simp only [Option.some.injEq, Prod.mk.injEq] at h
        obtain ⟨hx, hr⟩ := h
        subst hx; subst hr
        exact ⟨List.mem_cons_self _ _, fun y hy => List.mem_cons_of_mem _ hy⟩
      · rw [if_neg hcmp] at h
        simp only [Option.some.injEq, Prod.mk.injEq] at h
        obtain ⟨hx, hr⟩ := h
        subst hx
        obtain ⟨hmn, hsub⟩ := ih hm
        subst hr
        constructor
        · exact List.mem_cons_of_mem _ hmn
        · intro y hy
          rcases List.mem_cons.mp hy with hy | hy
          · subst hy; exact List.mem_cons_self _ _
          · exact List.mem_cons_of_mem _ (hsub y hy)

theorem bfsLoop_visChain (m : Matriz) (fuel : Nat) :
    ∀ s : EstadoBfs,
      List.Chain' relVisBfs s.pasos → ultimaVisBfs s.pasos = s.visitado →
      List.Chain' relVisBfs (bfsLoop m fuel s).pasos ∧
        ultimaVisBfs (bfsLoop m fuel s).pasos = (bfsLoop m fuel s).visitado := by
  induction fuel with
  | zero => exact fun s h1 h2 => ⟨h1, h2⟩
  | succ fuel ih =>
    intro s h1 h2
    rw [bfsLoop]
    split
    · exact ⟨h1, h2⟩
    · rename_i u resto heq
      by_cases hu : u ∈ s.visitado
      · rw [if_pos hu]
        exact ih _ h1 h2
      · rw [if_neg hu]
        obtain ⟨hp, hv, -⟩ := bfsVecinos_spec m u (List.range (nNodes m))
          { visitado := s.visitado ++ [u], cola := resto, padre := s.padre,
            pasos := s.pasos ++ [⟨u, s.visitado ++ [u], s.padre⟩] }
        apply ih
        · rw [hp]
          rw [List.chain'_append]
          refine ⟨h1, List.chain'_singleton _, ?_⟩
          intro x hx y hy
          simp only [List.head?_cons, Option.mem_def, Option.some.injEq] at hy
          subst hy
          have hlast : x.visitados = s.visitado := by
            rw [← h2]
            unfold ultimaVisBfs
            rw [Option.mem_def.mp hx]
            rfl
          show creceVisita x.visitados u (s.visitado ++ [u])
          rw [hlast]
          exact creceVisita_append hu
        · rw [hp, hv]
          unfold ultimaVisBfs
          rw [List.getLast?_concat]
          rfl

theorem bfs_visChain (m : Matriz) (inicio : Nat) :
    List.Chain' relVisBfs (bfs_pasos m inicio) :=
  (bfsLoop_visChain m (nNodes m * nNodes m + nNodes m + 2)
    { visitado := [], cola := [inicio], padre := [(inicio, none)], pasos := [] }
    List.chain'_nil rfl).1

theorem dijkstraRelaja_spec (m : Matriz) (u : Nat) (costo : Int)
    (vs : List Nat) :
    ∀ s : EstadoDijkstra,
      (dijkstraRelaja m u costo vs s).pasos = s.pasos ∧
      (dijkstraRelaja m u costo vs s).visitado = s.visitado := by
  induction vs with
  | nil => exact fun s => ⟨rfl, rfl⟩
  | cons v vs ih =>
    intro s
    rw [dijkstraRelaja]
    obtain ⟨h1, h2⟩ := ih (dijkstraRelajaV m u v costo s)
    rw [h1, h2]
    unfold dijkstraRelajaV
    by_cases hw : wt m u v > 0
    · rw [if_pos hw]
      by_cases hlt : ltOpt (costo + wt m u v) (s.dist.getD v none)
      · rw [if_pos hlt]
        exact ⟨rfl, rfl⟩
      · rw [if_neg hlt]
        exact ⟨rfl, rfl⟩
    · rw [if_neg hw]
      exact ⟨rfl, rfl⟩

theorem dijkstraLoop_visChain (m : Matriz) (objetivo : Nat) (fuel : Nat) :
    ∀ s : EstadoDijkstra,
      List.Chain' relVisDijkstra s.pasos →
      ultimaVisDijkstra s.pasos = s.visitado →
      List.Chain' relVisDijkstra (dijkstraLoop m objetivo fuel s).pasos ∧
        ultimaVisDijkstra (dijkstraLoop m objetivo fuel s).pasos =
          (dijkstraLoop m objetivo fuel s).visitado := by
  induction fuel with
  | zero => exact fun s h1 h2 => ⟨h1, h2⟩
  | succ fuel ih =>
    intro s h1 h2
    rw [dijkstraLoop]
    split
    · exact ⟨h1, h2⟩
    · rename_i costo u resto heq
      by_cases hu : u ∈ s.visitado
      · rw [if_pos hu]
        exact ih _ h1 h2
      · rw [if_neg hu]
        have hch : List.Chain' relVisDijkstra
            (s.pasos ++ [⟨u, s.visitado ++ [u], s.dist, s.padre⟩]) := by
          rw [List.chain'_append]
          refine ⟨h1, List.chain'_singleton _, ?_⟩
          intro x hx y hy
          simp only [List.head?_cons, Option.mem_def, Option.some.injEq] at hy
          subst hy
          have hlast : x.visitados = s.visitado := by
            rw [← h2]
            unfold ultimaVisDijkstra
            rw [Option.mem_def.mp hx]
            rfl
          show creceVisita x.visitados u (s.visitado ++ [u])
          rw [hlast]
          exact creceVisita_append hu
        have hul : ultimaVisDijkstra
            (s.pasos ++ [⟨u, s.visitado ++ [u], s.dist, s.padre⟩]) =
            s.visitado ++ [u] := by
          unfold ultimaVisDijkstra
          rw [List.getLast?_concat]
          rfl
        by_cases hobj : u = objetivo
        · rw [if_pos hobj]
          exact ⟨hch, hul⟩
        · rw [if_neg hobj]
          obtain ⟨hp, hv⟩ := dijkstraRelaja_spec m u costo (List.range (nNodes m))
            { pq := resto, dist := s.dist, padre := s.padre,
              visitado := s.visitado ++ [u],
              pasos := s.pasos ++ [⟨u, s.visitado ++ [u], s.dist, s.padre⟩] }
          apply ih
          · rw [hp]; exact hch
          · rw [hp, hv]; exact hul

theorem dijkstra_visChain (m : Matriz) (inicio objetivo : Nat) :
    List.Chain' relVisDijkstra (dijkstra_pasos m inicio objetivo).1 :=
  (dijkstraLoop_visChain m objetivo (nNodes m * nNodes m + nNodes m + 2)
    (dijkstraInit m inicio) List.chain'_nil rfl).1

theorem aStarRelaja_spec (m : Matriz) (objetivo u : Nat) (vs : List Nat) :
    ∀ s : EstadoAStar,
      (aStarRelaja m objetivo u vs s).pasos = s.pasos ∧
      (aStarRelaja m objetivo u vs s).visitado = s.visitado := by
  induction vs with
  | nil => exact fun s => ⟨rfl, rfl⟩
  | cons v vs ih =>
    intro s
    rw [aStarRelaja]
    obtain ⟨h1, h2⟩ := ih (aStarRelajaV m objetivo u v s)
    rw [h1, h2]
    unfold aStarRelajaV
    by_cases hw : wt m u v > 0
    · rw [if_pos hw]
      by_cases hlt : ltOpt ((s.g.lookup u).getD 0 + wt m u v) (s.g.lookup v)
      · rw [if_pos hlt]
        exact ⟨rfl, rfl⟩
      · rw [if_neg hlt]
        exact ⟨rfl, rfl⟩
    · rw [if_neg hw]
      exact ⟨rfl, rfl⟩

theorem aStarLoop_visChain (m : Matriz) (objetivo : Nat) (fuel : Nat) :
    ∀ s : EstadoAStar,
      List.Chain' relVisAStar s.pasos →
      ultimaVisAStar s.pasos = s.visitado →
      List.Chain' relVisAStar (aStarLoop m objetivo fuel s).pasos ∧
        ultimaVisAStar (aStarLoop m objetivo fuel s).pasos =
          (aStarLoop m objetivo fuel s).visitado := by
  induction fuel with
  | zero => exact fun s h1 h2 => ⟨h1, h2⟩
  | succ fuel ih =>
    intro s h1 h2
    rw [aStarLoop]
    split
    · exact ⟨h1, h2⟩
    · rename_i prio u resto heq
      by_cases hu : u ∈ s.visitado
      · rw [if_pos hu]
        exact ih _ h1 h2
      · rw [if_neg hu]
        have hch : List.Chain' relVisAStar
            (s.pasos ++ [⟨u, s.visitado ++ [u], s.g, s.padre⟩]) := by
          rw [List.chain'_append]
          refine ⟨h1, List.chain'_singleton _, ?_⟩
          intro x hx y hy
          simp only [List.head?_cons, Option.mem_def, Option.some.injEq] at hy
          subst hy
          have hlast : x.visitados = s.visitado := by
            rw [← h2]
            unfold ultimaVisAStar
            rw [Option.mem_def.mp hx]
            rfl
          show creceVisita x.visitados u (s.visitado ++ [u])
          rw [hlast]
          exact creceVisita_append hu
        have hul : ultimaVisAStar
            (s.pasos ++ [⟨u, s.visitado ++ [u], s.g, s.padre⟩]) =
            s.visitado ++ [u] := by
          unfold ultimaVisAStar
          rw [List.getLast?_concat]
          rfl
        by_cases hobj : u = objetivo
        · rw [if_pos hobj]
          exact ⟨hch, hul⟩
        · rw [if_neg hobj]
          obtain ⟨hp, hv⟩ := aStarRelaja_spec m objetivo u (List.range (nNodes m))
            { pq := resto, g := s.g, padre := s.padre,
              visitado := s.visitado ++ [u],
              pasos := s.pasos ++ [⟨u, s.visitado ++ [u], s.g, s.padre⟩] }
          apply ih
          · rw [hp]; exact hch
          · rw [hp, hv]; exact hul

theorem aStar_visChain (m : Matriz) (inicio objetivo : Nat) :
    List.Chain' relVisAStar (a_star_pasos m inicio objetivo).1 :=
  (aStarLoop_visChain m objetivo (nNodes m * nNodes m + nNodes m + 2)
    { pq := [(hAStar (nNodes m) inicio objetivo, inicio)], g := [(inicio, 0)],
      padre := [(inicio, none)], visitado := [], pasos := [] }
    List.chain'_nil rfl).1

theorem dfsFold_inv (m : Matriz) (fuel u : Nat)
    (hgo : ∀ (v : Nat) (s : EstadoDfs), v ∉ s.visitado →
      List.Chain' relVisDfs s.pasos → ultimaVisDfs s.pasos = s.visitado →
      List.Chain' relVisDfs (dfsGo m fuel v s).pasos ∧
        ultimaVisDfs (dfsGo m fuel v s).pasos = (dfsGo m fuel v s).visitado) :
    ∀ (vs : List Nat) (s : EstadoDfs),
      List.Chain' relVisDfs s.pasos → ultimaVisDfs s.pasos = s.visitado →
      List.Chain' relVisDfs (vs.foldl (fun st v =>
          if wt m u v > 0 ∧ v ∉ st.visitado then
            dfsGo m fuel v { st with padre := dictSet st.padre v (some u) }
          else st) s).pasos ∧
        ultimaVisDfs (vs.foldl (fun st v =>
          if wt m u v > 0 ∧ v ∉ st.visitado then
            dfsGo m fuel v { st with padre := dictSet st.padre v (some u) }
          else st) s).pasos =
          (vs.foldl (fun st v =>
          if wt m u v > 0 ∧ v ∉ st.visitado then
            dfsGo m fuel v { st with padre := dictSet st.padre v (some u) }
          else st) s).visitado := by
  intro vs
  induction vs with
  | nil =>
    intro s h1 h2
    exact ⟨h1, h2⟩
  | cons v vs ih =>
    intro s h1 h2
    simp only [List.foldl_cons]
    by_cases hg : wt m u v > 0 ∧ v ∉ s.visitado
    · rw [if_pos hg]
      obtain ⟨h3, h4⟩ := hgo v
        { visitado := s.visitado, padre := dictSet s.padre v (some u),
          pasos := s.pasos } hg.2 h1 h2
      exact ih _ h3 h4
    · rw [if_neg hg]
      exact ih _ h1 h2

theorem dfsGo_inv (m : Matriz) :
    ∀ (fuel : Nat) (u : Nat) (s : EstadoDfs), u ∉ s.visitado →
      List.Chain' relVisDfs s.pasos → ultimaVisDfs s.pasos = s.visitado →
      List.Chain' relVisDfs (dfsGo m fuel u s).pasos ∧
        ultimaVisDfs (dfsGo m fuel u s).pasos = (dfsGo m fuel u s).visitado := by
  intro fuel
  induction fuel with
  | zero =>
    intro u s _ h1 h2
    exact ⟨h1, h2⟩
  | succ fuel ih =>
    intro u s hu h1 h2
    rw [dfsGo]
    apply dfsFold_inv m fuel u ih
    · rw [List.chain'_append]
      refine ⟨h1, List.chain'_singleton _, ?_⟩
      intro x hx y hy
      simp only [List.head?_cons, Option.mem_def, Option.some.injEq] at hy
      subst hy
      have hlast : x.visitados = s.visitado := by
        rw [← h2]
        unfold ultimaVisDfs
        rw [Option.mem_def.mp hx]
        rfl
      show creceVisita x.visitados u (s.visitado ++ [u])
      rw [hlast]
      exact creceVisita_append hu
    · unfold ultimaVisDfs
      rw [List.getLast?_concat]
      rfl

theorem dfs_visChain (m : Matriz) (inicio : Nat) :
    List.Chain' relVisDfs (dfs_pasos m inicio) :=
  (dfsGo_inv m (nNodes m + 1) inicio
    { visitado := [], padre := [(inicio, none)], pasos := [] }
    (by simp) List.chain'_nil rfl).1

theorem getD_map_false (n i : Nat) :
    ((List.range n).map fun _ => false).getD i false = false := by
  rw [List.getD_eq_getElem?_getD, List.getElem?_map]
  cases h : (List.range n)[i]? <;> simp

theorem listaAdy_fst_lt (m : Matriz) (u : Nat) :
    ∀ q ∈ (matriz_a_lista_ady m).getD u [], q.1 < nNodes m := by
  intro q hq
  unfold matriz_a_lista_ady at hq
  rw [List.getD_eq_getElem?_getD, List.getElem?_map] at hq
  cases h : (List.range (nNodes m))[u]? with
  | none =>
    rw [h] at hq
    simp only [Option.map_none', Option.getD_none] at hq
    exact absurd hq (List.not_mem_nil _)
  | some i =>
    rw [h] at hq
    simp only [Option.map_some', Option.getD_some] at hq
    obtain ⟨j, hj, hij⟩ := List.mem_filterMap.mp hq
    by_cases hw : wt m i j ≠ 0
    · rw [if_pos hw] at hij
      cases hij
      exact List.mem_range.mp hj
    · rw [if_neg hw] at hij
      cases hij

theorem primEmpuja_spec (m : Matriz) (u : Nat) :
    ∀ (ps : List (Nat × Int)) (s : EstadoPrim),
      (∀ q ∈ ps, q.1 < nNodes m) →
      (primEmpuja u ps s).pasos = s.pasos ∧
      (primEmpuja u ps s).visitado = s.visitado ∧
      ((∀ e ∈ s.heap, e.2 < nNodes m) →
        ∀ e ∈ (primEmpuja u ps s).heap, e.2 < nNodes m) := by
  intro ps
  induction ps with
  | nil => exact fun s _ => ⟨rfl, rfl, fun h => h⟩
  | cons q ps ih =>
    intro s hps
    obtain ⟨v, w⟩ := q
    rw [primEmpuja]
    by_cases hv : s.visitado.getD v false
    · rw [if_pos hv]
      exact ih s fun q hq => hps q (List.mem_cons_of_mem _ hq)
    · rw [if_neg hv]
      obtain ⟨h1, h2, h3⟩ := ih
        { s with padre := s.padre.set v (Int.ofNat u), heap := s.heap ++ [(w, v)] }
        (fun q hq => hps q (List.mem_cons_of_mem _ hq))
      refine ⟨h1, h2, fun hh e he => ?_⟩
      refine h3 ?_ e he
      intro e2 he2
      rcases List.mem_append.mp he2 with he2 | he2
      · exact hh e2 he2
      · rw [List.mem_singleton.mp he2]
        exact hps (v, w) (List.mem_cons_self _ _)

theorem primLoop_visChain (m : Matriz) (fuel : Nat) :
    ∀ s : EstadoPrim,
      List.Chain' relVisPrim s.pasos →
      ultimaVisPrim s.pasos =
        (List.range (nNodes m)).filter (fun i => s.visitado.getD i false) →
      s.visitado.length = nNodes m →
      (∀ e ∈ s.heap, e.2 < nNodes m) →
      List.Chain' relVisPrim (primLoop m fuel s).pasos := by
  induction fuel with
  | zero => exact fun s h1 _ _ _ => h1
  | succ fuel ih =>
    intro s h1 h2 h3 h4
    rw [primLoop]
    split
    · exact h1
    · rename_i w u resto heq
      have hu : u < nNodes m := (h4 _ (popMin_mem heq).1)
      have hresto : ∀ e ∈ resto, e.2 < nNodes m :=
        fun e he => h4 e ((popMin_mem heq).2 e he)
      by_cases hvis : s.visitado.getD u false
      · rw [if_pos hvis]
        exact ih _ h1 h2 h3 hresto
      · rw [if_neg hvis]
        have hcrece : creceVisita
            ((List.range (nNodes m)).filter fun i => s.visitado.getD i false) u
            ((List.range (nNodes m)).filter fun i =>
              (s.visitado.set u true).getD i false) := by
          constructor
          · intro hmem
            exact hvis (by simpa using (List.mem_filter.mp hmem).2)
          · intro x
            constructor
            · intro hx
              by_cases hxu : x = u
              · exact Or.inl hxu
              · refine Or.inr (List.mem_filter.mpr ?_)
                obtain ⟨hr, hf⟩ := List.mem_filter.mp hx
                rw [getD_set_ne hxu] at hf
                exact ⟨hr, hf⟩
            · intro hx
              rcases hx with hx | hx
              · subst hx
                refine List.mem_filter.mpr ⟨List.mem_range.mpr hu, ?_⟩
                rw [getD_set_self (h3 ▸ hu)]
              · obtain ⟨hr, hf⟩ := List.mem_filter.mp hx
                refine List.mem_filter.mpr ⟨hr, ?_⟩
                by_cases hxu : x = u
                · subst hxu
                  rw [getD_set_self (h3 ▸ hu)]
                · rw [getD_set_ne hxu]
                  exact hf
        obtain ⟨hp, hv, hh⟩ := primEmpuja_spec m u
          ((matriz_a_lista_ady m).getD u [])
          { heap := resto, visitado := s.visitado.set u true, padre := s.padre,
            mst := if s.padre.getD u (-1) ≠ -1
              then s.mst ++ [(s.padre.getD u (-1), u)] else s.mst,
            pasos := s.pasos ++
              [⟨u, (List.range (nNodes m)).filter fun i =>
                (s.visitado.set u true).getD i false,
                if s.padre.getD u (-1) ≠ -1
                  then s.mst ++ [(s.padre.getD u (-1), u)] else s.mst⟩] }
          (listaAdy_fst_lt m u)
        apply ih
        · rw [hp]
          rw [List.chain'_append]
          refine ⟨h1, List.chain'_singleton _, ?_⟩
          intro x hx y hy
          simp only [List.head?_cons, Option.mem_def, Option.some.injEq] at hy
          subst hy
          have hlast : x.visitados =
              (List.range (nNodes m)).filter fun i => s.visitado.getD i false := by
            rw [← h2]
            unfold ultimaVisPrim
            rw [Option.mem_def.mp hx]
            rfl
          show creceVisita x.visitados u _
          rw [hlast]
          exact hcrece
        · rw [hp, hv]
          unfold ultimaVisPrim
          rw [List.getLast?_concat]
          rfl
        · rw [hv]
          simpa using h3
        · exact hh hresto

theorem prim_visChain (m : Matriz) (hn : 0 < nNodes m) :
    List.Chain' relVisPrim (prim_pasos m) := by
  apply primLoop_visChain m (nNodes m * nNodes m + nNodes m + 2)
  · exact List.chain'_nil
  · unfold ultimaVisPrim
    simp only [List.getLast?_nil, Option.map_none, Option.getD_none]
    symm
    apply List.filter_eq_nil_iff.mpr
    intro a _
    simp [getD_map_false]
  · simp
  · intro e he
    rw [List.mem_singleton.mp he]
    exact hn

theorem kruskalGo_chain (m : Matriz) :
    ∀ (es : List (Nat × Nat × Int)) (uf : List Nat) (mst : List (Nat × Nat))
      (pasos : List PasoKruskal),
      List.Chain' relMstKruskal pasos → ultimaMst pasos = mst →
      List.Chain' relMstKruskal (kruskalGo m es uf mst pasos) := by
  intro es
  induction es with
  | nil => exact fun uf mst pasos h1 _ => h1
  | cons e es ih =>
    intro uf mst pasos h1 h2
    obtain ⟨u, v, w⟩ := e
    rw [kruskalGo]
    apply ih
    · rw [List.chain'_append]
      refine ⟨h1, List.chain'_singleton _, ?_⟩
      intro x hx y hy
      simp only [List.head?_cons, Option.mem_def, Option.some.injEq] at hy
      subst hy
      have hlast : x.mst = mst := by
        rw [← h2]
        unfold ultimaMst
        rw [Option.mem_def.mp hx]
        rfl
      show relMstKruskal x _
      unfold relMstKruskal
      simp only [hlast, decide_eq_true_eq]
    · unfold ultimaMst
      rw [List.getLast?_concat]
      rfl

theorem kruskal_chain (m : Matriz) :
    List.Chain' relMstKruskal (kruskal_pasos m) :=
  kruskalGo_chain m (aristasKruskal m) (List.range (nNodes m)) [] []
    List.chain'_nil rfl

theorem bfsLoop_succ_eq (m : Matriz) (fuel : Nat) (s : EstadoBfs) :
    bfsLoop m (fuel + 1) s =
      match s.cola with
      | [] => s
      | u :: resto =>
        if u ∈ s.visitado then bfsLoop m fuel { s with cola := resto }
        else bfsLoop m fuel (bfsVecinos m u (List.range (nNodes m))
          { visitado := s.visitado ++ [u], cola := resto, padre := s.padre,
            pasos := s.pasos ++ [⟨u, s.visitado ++ [u], s.padre⟩] }) := by
  rw [bfsLoop]

theorem bfsLoop_pasos_extiende (m : Matriz) :
    ∀ (fuel : Nat) (s : EstadoBfs),
      ∃ t, (bfsLoop m fuel s).pasos = s.pasos ++ t := by
  intro fuel
  induction fuel with
  | zero =>
    intro s
    refine ⟨[], ?_⟩
    rw [show bfsLoop m 0 s = s from rfl]
    simp
  | succ fuel ih =>
    intro s
    rw [bfsLoop_succ_eq]
    cases hc : s.cola with
    | nil => exact ⟨[], by simp⟩
    | cons u resto =>
      dsimp only
      by_cases hu : u ∈ s.visitado
      · simp only [if_pos hu]
        exact ih _
      · simp only [if_neg hu]
        obtain ⟨hp, -, -⟩ := bfsVecinos_spec m u (List.range (nNodes m))
          { visitado := s.visitado ++ [u], cola := resto, padre := s.padre,
            pasos := s.pasos ++ [⟨u, s.visitado ++ [u], s.padre⟩] }
        obtain ⟨t2, ht2⟩ := ih (bfsVecinos m u (List.range (nNodes m))
          { visitado := s.visitado ++ [u], cola := resto, padre := s.padre,
            pasos := s.pasos ++ [⟨u, s.visitado ++ [u], s.padre⟩] })
        refine ⟨⟨u, s.visitado ++ [u], s.padre⟩ :: t2, ?_⟩
        rw [ht2, hp]
        simp

theorem bfsLoop_fuel_extiende (m : Matriz) :
    ∀ (fuel : Nat) (s : EstadoBfs),
      ∃ t, (bfsLoop m (fuel + 1) s).pasos = (bfsLoop m fuel s).pasos ++ t := by
  intro fuel
  induction fuel with
  | zero =>
    intro s
    obtain ⟨t, ht⟩ := bfsLoop_pasos_extiende m 1 s
    refine ⟨t, ?_⟩
    rw [show bfsLoop m 0 s = s from rfl]
    exact ht
  | succ fuel ih =>
    intro s
    rw [bfsLoop_succ_eq m (fuel + 1) s, bfsLoop_succ_eq m fuel s]
    cases hc : s.cola with
    | nil => exact ⟨[], by simp⟩
    | cons u resto =>
      dsimp only
      by_cases hu : u ∈ s.visitado
      · simp only [if_pos hu]
        exact ih _
      · simp only [if_neg hu]
        exact ih _

theorem dijkstraLoop_succ_eq (m : Matriz) (objetivo fuel : Nat)
    (s : EstadoDijkstra) :
    dijkstraLoop m objetivo (fuel + 1) s =
      match popMin s.pq with
      | none => s
      | some ((costo, u), resto) =>
        if u ∈ s.visitado then dijkstraLoop m objetivo fuel { s with pq := resto }
        else
          if u = objetivo then
            { pq := resto, dist := s.dist, padre := s.padre,
              visitado := s.visitado ++ [u],
              pasos := s.pasos ++ [⟨u, s.visitado ++ [u], s.dist, s.padre⟩] }
          else
            dijkstraLoop m objetivo fuel
              (dijkstraRelaja m u costo (List.range (nNodes m))
                { pq := resto, dist := s.dist, padre := s.padre,
                  visitado := s.visitado ++ [u],
                  pasos := s.pasos ++ [⟨u, s.visitado ++ [u], s.dist, s.padre⟩] }) := by
  rw [dijkstraLoop]

theorem dijkstraLoop_pasos_extiende (m : Matriz) (objetivo : Nat) :
    ∀ (fuel : Nat) (s : EstadoDijkstra),
      ∃ t, (dijkstraLoop m objetivo fuel s).pasos = s.pasos ++ t := by
  intro fuel
  induction fuel with
  | zero =>
    intro s
    refine ⟨[], ?_⟩
    rw [show dijkstraLoop m objetivo 0 s = s from rfl]
    simp
  | succ fuel ih =>
    intro s
    rw [dijkstraLoop_succ_eq]
    cases hpq : popMin s.pq with
    | none => exact ⟨[], by simp⟩
    | some par =>
      obtain ⟨⟨costo, u⟩, resto⟩ := par
      dsimp only
      by_cases hu : u ∈ s.visitado
      · simp only [if_pos hu]
        exact ih _
      · simp only [if_neg hu]
        by_cases hobj : u = objetivo
        · simp only [if_pos hobj]
          exact ⟨[⟨u, s.visitado ++ [u], s.dist, s.padre⟩], by simp⟩
        · simp only [if_neg hobj]
          obtain ⟨hp, -⟩ := dijkstraRelaja_spec m u costo (List.range (nNodes m))
            { pq := resto, dist := s.dist, padre := s.padre,
              visitado := s.visitado ++ [u],
              pasos := s.pasos ++ [⟨u, s.visitado ++ [u], s.dist, s.padre⟩] }
          obtain ⟨t2, ht2⟩ := ih (dijkstraRelaja m u costo (List.range (nNodes m))
            { pq := resto, dist := s.dist, padre := s.padre,
              visitado := s.visitado ++ [u],
              pasos := s.pasos ++ [⟨u, s.visitado ++ [u], s.dist, s.padre⟩] })
          refine ⟨⟨u, s.visitado ++ [u], s.dist, s.padre⟩ :: t2, ?_⟩
          rw [ht2, hp]
          simp

theorem dijkstraLoop_fuel_extiende (m : Matriz) (objetivo : Nat) :
    ∀ (fuel : Nat) (s : EstadoDijkstra),
      ∃ t, (dijkstraLoop m objetivo (fuel + 1) s).pasos =
        (dijkstraLoop m objetivo fuel s).pasos ++ t := by
  intro fuel
  induction fuel with
  | zero =>
    intro s
    obtain ⟨t, ht⟩ := dijkstraLoop_pasos_extiende m objetivo 1 s
    refine ⟨t, ?_⟩
    rw [show dijkstraLoop m objetivo 0 s = s from rfl]
    exact ht
  | succ fuel ih =>
    intro s
    rw [dijkstraLoop_succ_eq m objetivo (fuel + 1) s,
      dijkstraLoop_succ_eq m objetivo fuel s]
    cases hpq : popMin s.pq with
    | none => exact ⟨[], by simp⟩
    | some par =>
      obtain ⟨⟨costo, u⟩, resto⟩ := par
      dsimp only
      by_cases hu : u ∈ s.visitado
      · simp only [if_pos hu]
        exact ih _
      · simp only [if_neg hu]
        by_cases hobj : u = objetivo
        · simp only [if_pos hobj]
          exact ⟨[], by simp⟩
        · simp only [if_neg hobj]
          exact ih _

/-- Weight of a walk extended by one edge. -/
theorem pesoCamino_append (m : Matriz) :
    ∀ (l : List Nat) (u v : Nat), l.getLast? = some u →
      pesoCamino m (l ++ [v]) = pesoCamino m l + wt m u v := by
  intro l
  induction l with
  | nil => intro u v h; simp at h
  | cons x r ih =>
    intro u v h
    cases r with
    | nil =>
      simp only [List.getLast?_singleton, Option.some.injEq] at h
      subst h
      simp [pesoCamino]
    | cons y r2 =>
      have hlast : (y :: r2).getLast? = some u := by
        rwa [List.getLast?_cons_cons] at h
      show wt m x y + pesoCamino m ((y :: r2) ++ [v]) =
        wt m x y + pesoCamino m (y :: r2) + wt m u v
      rw [ih u v hlast]
      ring

/-- A walk extended along a positive edge stays a walk. -/
theorem esCamino_extiende (m : Matriz) {a u v : Nat} {l : List Nat}
    (h : esCamino m a u l) (hw : wt m u v > 0) :
    esCamino m a v (l ++ [v]) := by
  obtain ⟨h1, h2, h3⟩ := h
  have hne : l ≠ [] := by
    intro heq
    rw [heq] at h1
    simp at h1
  refine ⟨?_, ?_, ?_⟩
  · rw [List.head?_append_of_ne_nil l hne]
    exact h1
  · rw [List.getLast?_concat]
  · rw [List.chain'_append]
    refine ⟨h3, List.chain'_singleton _, ?_⟩
    intro x hx y hy
    simp only [List.head?_cons, Option.mem_def, Option.some.injEq] at hy
    subst hy
    rw [h2] at hx
    simp only [Option.mem_def, Option.some.injEq] at hx
    subst hx
    exact hw

/-- The one-node walk. -/
theorem esCamino_refl (m : Matriz) (a : Nat) : esCamino m a a [a] :=
  ⟨rfl, rfl, List.chain'_singleton _⟩

/-- Updating the binding of one key in place leaves other lookups alone. -/
theorem lookup_map_update_ne {α : Type} (k k2 : Nat) (v : α) (hne : k2 ≠ k) :
    ∀ d : List (Nat × α),
      (d.map (fun p => if p.1 = k then (k, v) else p)).lookup k2 = d.lookup k2 := by
  intro d
  induction d with
  | nil => simp
  | cons e d ih =>
    obtain ⟨k1, v1⟩ := e
    by_cases hk : k1 = k
    · subst hk
      simp only [List.map_cons]
      simp only [if_true]
      simp only [List.lookup_cons, beq_false_of_ne hne]
      exact ih
    · simp only [List.map_cons, if_neg hk]
      by_cases hb : k2 = k1
      · subst hb
        simp only [List.lookup_cons, beq_self_eq_true]
      · simp only [List.lookup_cons, beq_false_of_ne hb]
        exact ih

/-- Updating the binding of a bound key in place makes its lookup the new
value. -/
theorem lookup_map_update_self {α : Type} (k : Nat) (v : α) :
    ∀ d : List (Nat × α), (d.lookup k).isSome →
      (d.map (fun p => if p.1 = k then (k, v) else p)).lookup k = some v := by
  intro d
  induction d with
  | nil => intro h; simp at h
  | cons e d ih =>
    intro h
    obtain ⟨k1, v1⟩ := e
    by_cases hk : k1 = k
    · subst hk
      simp only [List.map_cons]
      simp only [if_true]
      simp [List.lookup_cons]
    · have hb : k ≠ k1 := fun hc => hk hc.symm
      simp only [List.map_cons, if_neg hk]
      simp only [List.lookup_cons, beq_false_of_ne hb] at h ⊢
      exact ih h

/-- Lookup after a dict update at the written key. -/
theorem dictSet_lookup_self {α : Type} (d : List (Nat × α)) (k : Nat) (v : α) :
    (dictSet d k v).lookup k = some v := by
  unfold dictSet
  by_cases h : (d.lookup k).isSome
  · rw [if_pos h]
    exact lookup_map_update_self k v d h
  · rw [if_neg h]
    rw [lookup_append_none (Option.not_isSome_iff_eq_none.mp h)]
    simp [List.lookup_cons]

/-- Lookup after a dict update at another key. -/
theorem dictSet_lookup_ne {α : Type} (d : List (Nat × α)) (k k2 : Nat) (v : α)
    (hne : k2 ≠ k) : (dictSet d k v).lookup k2 = d.lookup k2 := by
  unfold dictSet
  by_cases h : (d.lookup k).isSome
  · rw [if_pos h]
    exact lookup_map_update_ne k k2 v hne d
  · rw [if_neg h]
    by_cases h2 : (d.lookup k2).isSome
    · obtain ⟨w, hw⟩ := Option.isSome_iff_exists.mp h2
      rw [lookup_append_some hw, hw]
    · have h2n := Option.not_isSome_iff_eq_none.mp h2
      rw [lookup_append_none h2n, h2n]
      simp [List.lookup_cons, beq_false_of_ne hne]

/-- getD over a constant map is the constant. -/
theorem getD_map_const {α β : Type} (c : β) (l : List α) (i : Nat) :
    (l.map fun _ => c).getD i c = c := by
  rw [List.getD_eq_getElem?_getD, List.getElem?_map]
  cases h : l[i]? <;> simp

/-- The initial Dijkstra distance list only binds the start, at zero. -/
theorem distInit_getD {n inicio v : Nat} {d : Int}
    (h : ((((List.range n).map fun _ => (none : Option Int))).set inicio
      (some 0)).getD v none = some d) : v = inicio ∧ d = 0 := by
  by_cases hv : v = inicio
  · subst hv
    by_cases hlt : v < ((List.range n).map fun _ => (none : Option Int)).length
    · rw [getD_set_self hlt] at h
      cases h
      exact ⟨rfl, rfl⟩
    · rw [List.set_eq_of_length_le (by omega)] at h
      rw [getD_map_const] at h
      cases h
  · rw [getD_set_ne hv] at h
    rw [getD_map_const] at h
    cases h

theorem dijkstraRelajaV_real (m : Matriz) (inicio u v : Nat) (costo : Int)
    (s : EstadoDijkstra) (hs : distsRealizables m inicio s)
    (hcu : ∃ l, esCamino m inicio u l ∧ pesoCamino m l = costo) :
    distsRealizables m inicio (dijkstraRelajaV m u v costo s) := by
  unfold dijkstraRelajaV
  by_cases hw : wt m u v > 0
  · rw [if_pos hw]
    by_cases hlt : ltOpt (costo + wt m u v) (s.dist.getD v none)
    · rw [if_pos hlt]
      obtain ⟨l, hl, hp⟩ := hcu
      have hnuevo : ∃ l2, esCamino m inicio v l2 ∧
          pesoCamino m l2 = costo + wt m u v := by
        refine ⟨l ++ [v], esCamino_extiende m hl hw, ?_⟩
        rw [pesoCamino_append m l u v hl.2.1, hp]
      constructor
      · intro e he
        rcases List.mem_append.mp he with he | he
        · exact hs.1 e he
        · rw [List.mem_singleton.mp he]
          exact hnuevo
      · intro v2 d hd
        by_cases hv2 : v2 = v
        · subst hv2
          by_cases hlen : v2 < s.dist.length
          · rw [getD_set_self hlen] at hd
            cases hd
            exact hnuevo
          · rw [List.set_eq_of_length_le (by omega)] at hd
            exact hs.2 v2 d hd
        · rw [getD_set_ne hv2] at hd
          exact hs.2 v2 d hd
    · rw [if_neg hlt]
      exact hs
  · rw [if_neg hw]
    exact hs

theorem dijkstraRelaja_real (m : Matriz) (inicio u : Nat) (costo : Int)
    (vs : List Nat) :
    ∀ s : EstadoDijkstra, distsRealizables m inicio s →
      (∃ l, esCamino m inicio u l ∧ pesoCamino m l = costo) →
      distsRealizables m inicio (dijkstraRelaja m u costo vs s) := by
  induction vs with
  | nil => exact fun s hs _ => hs
  | cons v vs ih =>
    intro s hs hcu
    rw [dijkstraRelaja]
    exact ih _ (dijkstraRelajaV_real m inicio u v costo s hs hcu) hcu

theorem dijkstraLoop_real (m : Matriz) (inicio objetivo : Nat) (fuel : Nat) :
    ∀ s : EstadoDijkstra, distsRealizables m inicio s →
      distsRealizables m inicio (dijkstraLoop m objetivo fuel s) := by
  induction fuel with
  | zero => exact fun s hs => hs
  | succ fuel ih =>
    intro s hs
    rw [dijkstraLoop]
    split
    · exact hs
    · rename_i costo u resto heq
      have hsub : ∀ e ∈ resto, e ∈ s.pq := (popMin_mem heq).2
      have hcu : ∃ l, esCamino m inicio u l ∧ pesoCamino m l = costo :=
        hs.1 (costo, u) (popMin_mem heq).1
      by_cases hu : u ∈ s.visitado
      · rw [if_pos hu]
        exact ih _ ⟨fun e he => hs.1 e (hsub e he), hs.2⟩
      · rw [if_neg hu]
        have hs2 : distsRealizables m inicio
            { pq := resto, dist := s.dist, padre := s.padre,
              visitado := s.visitado ++ [u],
              pasos := s.pasos ++ [⟨u, s.visitado ++ [u], s.dist, s.padre⟩] } :=
          ⟨fun e he => hs.1 e (hsub e he), hs.2⟩
        by_cases hobj : u = objetivo
        · rw [if_pos hobj]
          exact hs2
        · rw [if_neg hobj]
          exact ih _ (dijkstraRelaja_real m inicio u costo
            (List.range (nNodes m)) _ hs2 hcu)

/-- Every finite distance reported by `dijkstra_pasos` is the weight of an
actual walk from the start to that node. -/
theorem dijkstra_dist_realizable (m : Matriz) (inicio objetivo v : Nat)
    (d : Int) (h : (dijkstra_pasos m inicio objetivo).2.2.getD v none = some d) :
    ∃ l, esCamino m inicio v l ∧ pesoCamino m l = d := by
  have hinit : distsRealizables m inicio (dijkstraInit m inicio) := by
    constructor
    · intro e he
      rw [List.mem_singleton.mp he]
      exact ⟨[inicio], esCamino_refl m inicio, rfl⟩
    · intro v2 d2 hd2
      obtain ⟨hv2, hd0⟩ := distInit_getD hd2
      subst hv2
      subst hd0
      exact ⟨[v2], esCamino_refl m v2, rfl⟩
  exact (dijkstraLoop_real m inicio objetivo
    (nNodes m * nNodes m + nNodes m + 2) _ hinit).2 v d h

/-- The popped A-star heap entry is an element, and the rest is a
subset. -/
theorem popMinR_mem :
    ∀ {l : List (ℝ × Nat)} {x : ℝ × Nat} {resto : List (ℝ × Nat)},
      popMinR l = some (x, resto) → x ∈ l ∧ ∀ y ∈ resto, y ∈ l := by
  intro l
  induction l with
  | nil => intro x resto h; rw [popMinR] at h; cases h
  | cons a as ih =>
    intro x resto h
    rw [popMinR] at h
    cases hm : popMinR as with
    | none =>
      rw [hm] at h
      simp only [Option.some.injEq, Prod.mk.injEq] at h
      obtain ⟨hx, hr⟩ := h
      subst hx; subst hr
      exact ⟨List.mem_cons_self _ _, by simp⟩
    | some par =>
      obtain ⟨mn, rs⟩ := par
      rw [hm] at h
      replace h : (if menorParR a mn then some (a, as) else some (mn, a :: rs))
          = some (x, resto) := h
      by_cases hcmp : menorParR a mn
      · rw [if_pos hcmp] at h
        simp only [Option.some.injEq, Prod.mk.injEq] at h
        obtain ⟨hx, hr⟩ := h
        subst hx; subst hr
        exact ⟨List.mem_cons_self _ _, fun y hy => List.mem_cons_of_mem _ hy⟩
      · rw [if_neg hcmp] at h
        simp only [Option.some.injEq, Prod.mk.injEq] at h
        obtain ⟨hx, hr⟩ := h
        subst hx
        obtain ⟨hmn, hsub⟩ := ih hm
        subst hr
        constructor
        · exact List.mem_cons_of_mem _ hmn
        · intro y hy
          rcases List.mem_cons.mp hy with hy | hy
          · subst hy; exact List.mem_cons_self _ _
          · exact List.mem_cons_of_mem _ (hsub y hy)

/-- Dict updates keep bound keys bound. -/
theorem dictSet_isSome {α : Type} (d : List (Nat × α)) (k x : Nat) (v : α)
    (h : (d.lookup x).isSome) : ((dictSet d k v).lookup x).isSome := by
  by_cases hx : x = k
  · subst hx
    rw [dictSet_lookup_self]
    rfl
  · rw [dictSet_lookup_ne d k x v hx]
    exact h

theorem aStarRelajaV_real (m : Matriz) (inicio objetivo u v : Nat)
    (s : EstadoAStar) (hs : gRealizable m inicio s)
    (hu : (s.g.lookup u).isSome) :
    gRealizable m inicio (aStarRelajaV m objetivo u v s) ∧
      ((aStarRelajaV m objetivo u v s).g.lookup u).isSome := by
  unfold aStarRelajaV
  by_cases hw : wt m u v > 0
  · rw [if_pos hw]
    by_cases hlt : ltOpt ((s.g.lookup u).getD 0 + wt m u v) (s.g.lookup v)
    · rw [if_pos hlt]
      obtain ⟨gu, hgu⟩ := Option.isSome_iff_exists.mp hu
      obtain ⟨l, hl, hp⟩ := hs.1 u gu hgu
      have hnuevo : ∃ l2, esCamino m inicio v l2 ∧
          pesoCamino m l2 = (s.g.lookup u).getD 0 + wt m u v := by
        refine ⟨l ++ [v], esCamino_extiende m hl hw, ?_⟩
        rw [pesoCamino_append m l u v hl.2.1, hp, hgu]
        rfl
      refine ⟨⟨?_, ?_⟩, ?_⟩
      · intro v2 c hc
        by_cases hv2 : v2 = v
        · subst hv2
          rw [dictSet_lookup_self] at hc
          cases hc
          exact hnuevo
        · rw [dictSet_lookup_ne _ _ _ _ hv2] at hc
          exact hs.1 v2 c hc
      · intro e he
        rcases List.mem_append.mp he with he | he
        · exact dictSet_isSome _ _ _ _ (hs.2 e he)
        · rw [List.mem_singleton.mp he]
          rw [dictSet_lookup_self]
          rfl
      · exact dictSet_isSome _ _ _ _ hu
    · rw [if_neg hlt]
      exact ⟨hs, hu⟩
  · rw [if_neg hw]
    exact ⟨hs, hu⟩

theorem aStarRelaja_real (m : Matriz) (inicio objetivo u : Nat)
    (vs : List Nat) :
    ∀ s : EstadoAStar, gRealizable m inicio s → (s.g.lookup u).isSome →
      gRealizable m inicio (aStarRelaja m objetivo u vs s) := by
  induction vs with
  | nil => exact fun s hs _ => hs
  | cons v vs ih =>
    intro s hs hu
    rw [aStarRelaja]
    obtain ⟨h1, h2⟩ := aStarRelajaV_real m inicio objetivo u v s hs hu
    exact ih _ h1 h2

theorem aStarLoop_real (m : Matriz) (inicio objetivo : Nat) (fuel : Nat) :
    ∀ s : EstadoAStar, gRealizable m inicio s →
      gRealizable m inicio (aStarLoop m objetivo fuel s) := by
  induction fuel with
  | zero => exact fun s hs => hs
  | succ fuel ih =>
    intro s hs
    rw [aStarLoop]
    split
    · exact hs
    · rename_i prio u resto heq
      have hmem := popMinR_mem heq
      have hu : (s.g.lookup u).isSome := hs.2 (prio, u) hmem.1
      have hresto : ∀ e ∈ resto, e ∈ s.pq := hmem.2
      by_cases hvis : u ∈ s.visitado
      · rw [if_pos hvis]
        exact ih _ ⟨hs.1, fun e he => hs.2 e (hresto e he)⟩
      · rw [if_neg hvis]
        have hs2 : gRealizable m inicio
            { pq := resto, g := s.g, padre := s.padre,
              visitado := s.visitado ++ [u],
              pasos := s.pasos ++ [⟨u, s.visitado ++ [u], s.g, s.padre⟩] } :=
          ⟨hs.1, fun e he => hs.2 e (hresto e he)⟩
        by_cases hobj : u = objetivo
        · rw [if_pos hobj]
          exact hs2
        · rw [if_neg hobj]
          exact ih _ (aStarRelaja_real m inicio objetivo u
            (List.range (nNodes m)) _ hs2 hu)

/-- Every finite cost reported by `a_star_pasos` is the weight of an actual
walk from the start to that node. -/
theorem aStar_g_realizable (m : Matriz) (inicio objetivo v : Nat) (c : Int)
    (h : (a_star_pasos m inicio objetivo).2.2.lookup v = some c) :
    ∃ l, esCamino m inicio v l ∧ pesoCamino m l = c := by
  have hinit : gRealizable m inicio
      { pq := [(hAStar (nNodes m) inicio objetivo, inicio)], g := [(inicio, 0)],
        padre := [(inicio, none)], visitado := [], pasos := [] } := by
    constructor
    · intro v2 c2 hc2
      by_cases hv2 : v2 = inicio
      · subst hv2
        simp only [List.lookup_cons, beq_self_eq_true] at hc2
        cases hc2
        exact ⟨[v2], esCamino_refl m v2, rfl⟩
      · simp only [List.lookup_cons, beq_false_of_ne hv2] at hc2
        cases hc2
    · intro e he
      rw [List.mem_singleton.mp he]
      simp [List.lookup_cons]
  exact (aStarLoop_real m inicio objetivo
    (nNodes m * nNodes m + nNodes m + 2) _ hinit).1 v c h

/-- Value of the integer square root used by the ten-node grid. -/
theorem sqrt10_eq : Nat.sqrt 10 = 3 :=
  le_antisymm (Nat.lt_succ_iff.mp (Nat.sqrt_lt.mpr (by norm_num)))
    (Nat.le_sqrt.mpr (by norm_num))

/-- The ten-node synthetic grid has four columns. -/
theorem columnas_10 : columnas 10 = 4 := by
  unfold columnas
  rw [sqrt10_eq]
  norm_num

/-- Heuristic at the goal itself. -/
theorem hAStar_10_0_0 : hAStar 10 0 0 = 0 := by
  unfold hAStar generar_coords
  rw [columnas_10]
  norm_num

/-- Heuristic from node 3 (grid position (3,0)) to the goal at (0,0):
exactly 3, although the graph distance is 1. -/
theorem hAStar_10_3_0 : hAStar 10 3 0 = 3 := by
  unfold hAStar generar_coords
  rw [columnas_10]
  norm_num
  rw [show (9 : ℝ) = 3 ^ 2 by norm_num]
  exact Real.sqrt_sq (by norm_num)

/-- First A-star iteration on `grafoAStar`: pop the start, relax its two
neighbours; everything reduces definitionally because the only heap pop is
a singleton. -/
theorem paso1_eval :
    aStarLoop grafoAStar 0 112
      ⟨[(hAStar 10 4 0, 4)], [(4, 0)], [(4, none)], [], []⟩ =
    aStarLoop grafoAStar 0 111 estadoMedio := rfl

/-- The direct-edge entry of priority 3 beats the frontier entry of
priority 1 + 3 carried by the overestimating heuristic. -/
theorem menor_medio : menorParR (((3 : Int) : ℝ) + hAStar 10 0 0, 0)
    (((1 : Int) : ℝ) + hAStar 10 3 0, 3) = true := by
  unfold menorParR
  dsimp only
  rw [hAStar_10_0_0, hAStar_10_3_0]
  rw [if_pos (show ((3 : Int) : ℝ) + 0 < ((1 : Int) : ℝ) + 3 by
    push_cast
    norm_num)]

/-- Second pop of the run: the goal comes out first. -/
theorem pop2_eval : popMinR estadoMedio.pq =
    some ((((3 : Int) : ℝ) + hAStar 10 0 0, 0),
      [(((1 : Int) : ℝ) + hAStar 10 3 0, 3)]) := by
  show popMinR [(((3 : Int) : ℝ) + hAStar 10 0 0, 0),
    (((1 : Int) : ℝ) + hAStar 10 3 0, 3)] = _
  rw [popMinR]
  rw [show popMinR [(((1 : Int) : ℝ) + hAStar 10 3 0, 3)] =
    some ((((1 : Int) : ℝ) + hAStar 10 3 0, 3), []) from rfl]
  simp only [menor_medio, if_true]

/-- Full evaluation of A-star on `grafoAStar` from 4 to 0: the goal is
finalized through the direct edge with cost 3, while the cheaper walk
4, 3, 0 of weight 2 is never taken. -/
theorem aStar_grafoAStar_eval :
    a_star_pasos grafoAStar 4 0 =
      ([⟨4, [4], [(4, 0)], [(4, none)]⟩,
        ⟨0, [4, 0], [(4, 0), (0, 3), (3, 1)],
          [(4, none), (0, some 4), (3, some 4)]⟩],
       [4, 0], [(4, 0), (0, 3), (3, 1)]) := by
  have e : a_star_pasos grafoAStar 4 0 =
      (let s := aStarLoop grafoAStar 0 111 estadoMedio;
       (s.pasos, reconstruye s.padre (s.padre.length + 1) (some 0) [], s.g)) := rfl
  rw [e, show (111 : Nat) = 110 + 1 from rfl, aStarLoop, pop2_eval]
  dsimp only
  rw [if_neg (show ¬ ((0 : Nat) ∈ estadoMedio.visitado) by
    show ¬ ((0 : Nat) ∈ [4])
    decide)]
  rw [if_pos rfl]
  rfl

/-- Full evaluation of A-star on the two-node graph: both pops are
singleton pops, so the whole run reduces definitionally. -/
theorem aStar_grafoPar_eval :
    a_star_pasos grafoPar 0 1 =
      ([⟨0, [0], [(0, 0)], [(0, none)]⟩,
        ⟨1, [0, 1], [(0, 0), (1, 1)], [(0, none), (1, some 0)]⟩],
       [0, 1], [(0, 0), (1, 1)]) := rfl

/-- C4: the reported costs differ on `grafoAStar` from 4 to 0: A-star
reports g[0] = 3 (the heuristic at node 3 overestimates, so the cheaper
route through it is never explored) while Dijkstra reports dist[0] = 2, so
the claimed agreement fails. -/
theorem c4_contraejemplo :
    (a_star_pasos grafoAStar 4 0).2.2.lookup 0 = some 3 ∧
      (dijkstra_pasos grafoAStar 4 0).2.2.getD 0 none = some 2 ∧
      ¬ ((3 : Int) = 2) := by
  refine ⟨?_, by decide, by decide⟩
  rw [aStar_grafoAStar_eval]
  rfl

/-- C4 (amended): on the same graph, start and goal, the cost reported by
Dijkstra for the goal and the cost reported by A-star for the goal are each
the total weight of an actual start-to-goal walk of the graph; the two need
not be equal, because the synthetic-grid heuristic can overestimate. -/
theorem c4_costes_realizables :
    ∀ (m : Matriz) (inicio objetivo : Nat),
      (∀ d : Int,
        (dijkstra_pasos m inicio objetivo).2.2.getD objetivo none = some d →
        ∃ l, esCamino m inicio objetivo l ∧ pesoCamino m l = d) ∧
      (∀ c : Int,
        (a_star_pasos m inicio objetivo).2.2.lookup objetivo = some c →
        ∃ l, esCamino m inicio objetivo l ∧ pesoCamino m l = c) :=
  fun m inicio objetivo =>
    ⟨fun d h => dijkstra_dist_realizable m inicio objetivo objetivo d h,
     fun c h => aStar_g_realizable m inicio objetivo objetivo c h⟩

/-- Witness for C4 (amended) on `grafoAStar`: Dijkstra reports 2 and
A-star reports 3, and each is realized by an actual walk. -/
theorem c4_costes_realizables_witness :
    (∃ l, esCamino grafoAStar 4 0 l ∧ pesoCamino grafoAStar l = 2) ∧
    (∃ l, esCamino grafoAStar 4 0 l ∧ pesoCamino grafoAStar l = 3) :=
  ⟨(c4_costes_realizables grafoAStar 4 0).1 2 (by decide),
   (c4_costes_realizables grafoAStar 4 0).2 3
     (by rw [aStar_grafoAStar_eval]; rfl)⟩

/-- C7: in every run, the visited set of each BFS, DFS, Dijkstra, A-star
and Prim snapshot extends the previous snapshot's by exactly its own
current node; each Kruskal snapshot's MST list extends the previous one by
its own edge exactly when accepted; and running the BFS or Dijkstra loop
longer only appends snapshots, never altering the ones already emitted. -/
theorem c7_crecimiento_snapshots :
    (∀ (m : Matriz) (inicio i : Nat)
      (h : i < (bfs_pasos m inicio).length - 1),
      creceVisita ((bfs_pasos m inicio).get ⟨i, by omega⟩).visitados
        ((bfs_pasos m inicio).get ⟨i + 1, by omega⟩).actual
        ((bfs_pasos m inicio).get ⟨i + 1, by omega⟩).visitados) ∧
    (∀ (m : Matriz) (inicio i : Nat)
      (h : i < (dfs_pasos m inicio).length - 1),
      creceVisita ((dfs_pasos m inicio).get ⟨i, by omega⟩).visitados
        ((dfs_pasos m inicio).get ⟨i + 1, by omega⟩).actual
        ((dfs_pasos m inicio).get ⟨i + 1, by omega⟩).visitados) ∧
    (∀ (m : Matriz) (inicio objetivo i : Nat)
      (h : i < (dijkstra_pasos m inicio objetivo).1.length - 1),
      creceVisita
        ((dijkstra_pasos m inicio objetivo).1.get ⟨i, by omega⟩).visitados
        ((dijkstra_pasos m inicio objetivo).1.get ⟨i + 1, by omega⟩).actual
        ((dijkstra_pasos m inicio objetivo).1.get
          ⟨i + 1, by omega⟩).visitados) ∧
    (∀ (m : Matriz) (inicio objetivo i : Nat)
      (h : i < (a_star_pasos m inicio objetivo).1.length - 1),
      creceVisita
        ((a_star_pasos m inicio objetivo).1.get ⟨i, by omega⟩).visitados
        ((a_star_pasos m inicio objetivo).1.get ⟨i + 1, by omega⟩).actual
        ((a_star_pasos m inicio objetivo).1.get
          ⟨i + 1, by omega⟩).visitados) ∧
    (∀ (m : Matriz), 0 < nNodes m → ∀ (i : Nat)
      (h : i < (prim_pasos m).length - 1),
      creceVisita ((prim_pasos m).get ⟨i, by omega⟩).visitados
        ((prim_pasos m).get ⟨i + 1, by omega⟩).actual
        ((prim_pasos m).get ⟨i + 1, by omega⟩).visitados) ∧
    (∀ (m : Matriz) (i : Nat) (h : i < (kruskal_pasos m).length - 1),
      ((kruskal_pasos m).get ⟨i + 1, by omega⟩).mst =
        if ((kruskal_pasos m).get ⟨i + 1, by omega⟩).ok then
          ((kruskal_pasos m).get ⟨i, by omega⟩).mst ++
            [((kruskal_pasos m).get ⟨i + 1, by omega⟩).edge]
        else ((kruskal_pasos m).get ⟨i, by omega⟩).mst) ∧
    (∀ (m : Matriz) (inicio fuel : Nat),
      ∃ t, (bfsLoop m (fuel + 1)
          ⟨[], [inicio], [(inicio, none)], []⟩).pasos =
        (bfsLoop m fuel ⟨[], [inicio], [(inicio, none)], []⟩).pasos ++ t) ∧
    (∀ (m : Matriz) (inicio objetivo fuel : Nat),
      ∃ t, (dijkstraLoop m objetivo (fuel + 1) (dijkstraInit m inicio)).pasos =
        (dijkstraLoop m objetivo fuel (dijkstraInit m inicio)).pasos ++ t) := by
  refine ⟨?_, ?_, ?_, ?_, ?_, ?_, ?_, ?_⟩
  · exact fun m inicio i h => List.chain'_iff_get.mp (bfs_visChain m inicio) i h
  · exact fun m inicio i h => List.chain'_iff_get.mp (dfs_visChain m inicio) i h
  · exact fun m inicio objetivo i h =>
      List.chain'_iff_get.mp (dijkstra_visChain m inicio objetivo) i h
  · exact fun m inicio objetivo i h =>
      List.chain'_iff_get.mp (aStar_visChain m inicio objetivo) i h
  · exact fun m hn i h => List.chain'_iff_get.mp (prim_visChain m hn) i h
  · exact fun m i h => List.chain'_iff_get.mp (kruskal_chain m) i h
  · exact fun m inicio fuel => bfsLoop_fuel_extiende m fuel _
  · exact fun m inicio objetivo fuel => dijkstraLoop_fuel_extiende m objetivo fuel _

/-- Witness for C7: one concrete consecutive-snapshot instance per
algorithm, plus the loop-extension facts at fuel 0. -/
theorem c7_crecimiento_snapshots_witness :
    creceVisita ((bfs_pasos grafoTri 0).get ⟨0, by decide⟩).visitados
      ((bfs_pasos grafoTri 0).get ⟨1, by decide⟩).actual
      ((bfs_pasos grafoTri 0).get ⟨1, by decide⟩).visitados ∧
    creceVisita ((dfs_pasos grafoTri 0).get ⟨0, by decide⟩).visitados
      ((dfs_pasos grafoTri 0).get ⟨1, by decide⟩).actual
      ((dfs_pasos grafoTri 0).get ⟨1, by decide⟩).visitados ∧
    creceVisita ((dijkstra_pasos grafo2 0 4).1.get ⟨0, by decide⟩).visitados
      ((dijkstra_pasos grafo2 0 4).1.get ⟨1, by decide⟩).actual
      ((dijkstra_pasos grafo2 0 4).1.get ⟨1, by decide⟩).visitados ∧
    creceVisita ((a_star_pasos grafoAStar 4 0).1.get
        ⟨0, by rw [aStar_grafoAStar_eval]; decide⟩).visitados
      ((a_star_pasos grafoAStar 4 0).1.get
        ⟨1, by rw [aStar_grafoAStar_eval]; decide⟩).actual
      ((a_star_pasos grafoAStar 4 0).1.get
        ⟨1, by rw [aStar_grafoAStar_eval]; decide⟩).visitados ∧
    creceVisita ((prim_pasos grafoBugPrim).get ⟨0, by decide⟩).visitados
      ((prim_pasos grafoBugPrim).get ⟨1, by decide⟩).actual
      ((prim_pasos grafoBugPrim).get ⟨1, by decide⟩).visitados ∧
    (((kruskal_pasos grafoBugPrim).get ⟨1, by decide⟩).mst =
      if ((kruskal_pasos grafoBugPrim).get ⟨1, by decide⟩).ok then
        ((kruskal_pasos grafoBugPrim).get ⟨0, by decide⟩).mst ++
          [((kruskal_pasos grafoBugPrim).get ⟨1, by decide⟩).edge]
      else ((kruskal_pasos grafoBugPrim).get ⟨0, by decide⟩).mst) ∧
    (∃ t, (bfsLoop grafoTri 1 ⟨[], [0], [(0, none)], []⟩).pasos =
      (bfsLoop grafoTri 0 ⟨[], [0], [(0, none)], []⟩).pasos ++ t) ∧
    (∃ t, (dijkstraLoop grafo2 4 1 (dijkstraInit grafo2 0)).pasos =
      (dijkstraLoop grafo2 4 0 (dijkstraInit grafo2 0)).pasos ++ t) :=
  ⟨c7_crecimiento_snapshots.1 grafoTri 0 0 (by decide),
   c7_crecimiento_snapshots.2.1 grafoTri 0 0 (by decide),
   c7_crecimiento_snapshots.2.2.1 grafo2 0 4 0 (by decide),
   c7_crecimiento_snapshots.2.2.2.1 grafoAStar 4 0 0
     (by rw [aStar_grafoAStar_eval]; decide),
   c7_crecimiento_snapshots.2.2.2.2.1 grafoBugPrim (by decide) 0 (by decide),
   c7_crecimiento_snapshots.2.2.2.2.2.1 grafoBugPrim 0 (by decide),
   c7_crecimiento_snapshots.2.2.2.2.2.2.1 grafoTri 0 0,
   c7_crecimiento_snapshots.2.2.2.2.2.2.2 grafo2 0 4 0⟩

/-- Every edge produced by `matriz_a_aristas` has an in-range head. -/
theorem aristas_snd_lt (m : Matriz) :
    ∀ e ∈ matriz_a_aristas m, e.2.1 < nNodes m := by
  intro e he
  unfold matriz_a_aristas at he
  rw [List.mem_flatMap] at he
  obtain ⟨i, _, hj⟩ := he
  rw [List.mem_filterMap] at hj
  obtain ⟨j, hjr, hj2⟩ := hj
  by_cases hw : wt m i j ≠ 0
  · rw [if_pos hw] at hj2
    cases hj2
    exact List.mem_range.mp hjr
  · rw [if_neg hw] at hj2
    cases hj2

/-- The inner edge loop only appends fully detailed `relajacion`
snapshots, sets the change flag exactly when it appended one, and keeps
the distance-table length. -/
theorem bellmanRelaja_spec (i : Nat) :
    ∀ (es : List (Nat × Nat × Int)) (s : EstadoBellman),
      (∀ e ∈ es, e.2.1 < s.dist.length) →
      ∃ t, (bellmanRelaja i es s).pasos = s.pasos ++ t ∧
        (bellmanRelaja i es s).dist.length = s.dist.length ∧
        ((bellmanRelaja i es s).cambio = true ↔ s.cambio = true ∨ t ≠ []) ∧
        ∀ p ∈ t, ∃ dist padre u v peso dAnt du,
          p = PasoBellman.relajacion (i + 1) dist padre (u, v) peso dAnt
            (some (du + peso)) ∧ (u, v, peso) ∈ es ∧
          dist.getD v none = some (du + peso) ∧
          padre.lookup v = some (some u) ∧
          ltOpt (du + peso) dAnt = true := by
  intro es
  induction es with
  | nil =>
    intro s _
    exact ⟨[], by simp [bellmanRelaja], rfl, by simp [bellmanRelaja], by simp⟩
  | cons e es ih =>
    obtain ⟨u, v, peso⟩ := e
    intro s hlen
    rw [bellmanRelaja]
    split
    · rename_i hdu
      obtain ⟨t, h1, h2, h3, h4⟩ := ih s
        (fun e he => hlen e (List.mem_cons_of_mem _ he))
      refine ⟨t, h1, h2, h3, fun p hp => ?_⟩
      obtain ⟨d2, p2, u2, v2, w2, a2, g2, hpeq, hmem, hrest⟩ := h4 p hp
      exact ⟨d2, p2, u2, v2, w2, a2, g2, hpeq,
        List.mem_cons_of_mem _ hmem, hrest⟩
    · rename_i du hdu
      by_cases hlt : ltOpt (du + peso) (s.dist.getD v none)
      · rw [if_pos hlt]
        have hv : v < s.dist.length := hlen (u, v, peso) (List.mem_cons_self _ _)
        obtain ⟨t, h1, h2, h3, h4⟩ := ih
          { dist := s.dist.set v (some (du + peso)),
            padre := dictSet s.padre v (some u), cambio := true,
            pasos := s.pasos ++
              [.relajacion (i + 1) (s.dist.set v (some (du + peso)))
                (dictSet s.padre v (some u)) (u, v) peso (s.dist.getD v none)
                (some (du + peso))] }
          (fun e he => by
            simpa [List.length_set] using
              hlen e (List.mem_cons_of_mem _ he))
        refine ⟨PasoBellman.relajacion (i + 1)
            (s.dist.set v (some (du + peso))) (dictSet s.padre v (some u))
            (u, v) peso (s.dist.getD v none) (some (du + peso)) :: t,
          ?_, ?_, ?_, ?_⟩
        · rw [h1]
          simp
        · rw [h2]
          simp [List.length_set]
        · rw [h3]
          simp
        · intro p hp
          rcases List.mem_cons.mp hp with hp | hp
          · subst hp
            exact ⟨s.dist.set v (some (du + peso)), dictSet s.padre v (some u),
              u, v, peso, s.dist.getD v none, du, rfl,
              List.mem_cons_self _ _, getD_set_self hv _ _,
              dictSet_lookup_self _ _ _, hlt⟩
          · obtain ⟨d2, p2, u2, v2, w2, a2, g2, hpeq, hmem, hrest⟩ := h4 p hp
            exact ⟨d2, p2, u2, v2, w2, a2, g2, hpeq,
              List.mem_cons_of_mem _ hmem, hrest⟩
      · rw [if_neg hlt]
        obtain ⟨t, h1, h2, h3, h4⟩ := ih s
          (fun e he => hlen e (List.mem_cons_of_mem _ he))
        refine ⟨t, h1, h2, h3, fun p hp => ?_⟩
        obtain ⟨d2, p2, u2, v2, w2, a2, g2, hpeq, hmem, hrest⟩ := h4 p hp
        exact ⟨d2, p2, u2, v2, w2, a2, g2, hpeq,
          List.mem_cons_of_mem _ hmem, hrest⟩

/-- Master invariant of the outer loop over the remaining iteration
indices `range' i k`: a `sin_cambios` snapshot can only sit in the last
position, every snapshot is internally coherent, a `sin_cambios` at
iteration `kk` means every earlier iteration relaxed at least one edge and
iteration `kk` none, and a run with no `sin_cambios` relaxed at least one
edge in every iteration. -/
theorem bellmanIter_spec (m : Matriz) :
    ∀ (k i : Nat) (s : EstadoBellman),
      s.dist.length = nNodes m →
      i + k ≤ nNodes m - 1 →
      (∀ p ∈ s.pasos, esSinCambios p = false) →
      (∀ p ∈ s.pasos, 1 ≤ iterDe p ∧ iterDe p ≤ i) →
      (∀ p ∈ s.pasos, pasoCoherente m p) →
      (∀ j, 1 ≤ j → j ≤ i → ∃ p ∈ s.pasos, iterDe p = j) →
      (∀ p ∈ (bellmanIter (matriz_a_aristas m) (List.range' i k) s).pasos.dropLast,
        esSinCambios p = false) ∧
      (∀ p ∈ (bellmanIter (matriz_a_aristas m) (List.range' i k) s).pasos,
        pasoCoherente m p) ∧
      (∀ kk dd pd, PasoBellman.sinCambios kk dd pd ∈
          (bellmanIter (matriz_a_aristas m) (List.range' i k) s).pasos →
        (∀ p ∈ (bellmanIter (matriz_a_aristas m) (List.range' i k) s).pasos,
          esSinCambios p = false → iterDe p < kk) ∧
        (∀ j, 1 ≤ j → j < kk →
          ∃ p ∈ (bellmanIter (matriz_a_aristas m) (List.range' i k) s).pasos,
            esSinCambios p = false ∧ iterDe p = j)) ∧
      ((∀ p ∈ (bellmanIter (matriz_a_aristas m) (List.range' i k) s).pasos,
          esSinCambios p = false) →
        ∀ j, 1 ≤ j → j ≤ i + k →
          ∃ p ∈ (bellmanIter (matriz_a_aristas m) (List.range' i k) s).pasos,
            esSinCambios p = false ∧ iterDe p = j) := by
  intro k
  induction k with
  | zero =>
    intro i s _ _ h3 h4 _ h6
    rw [show List.range' i 0 = [] from rfl, show bellmanIter (matriz_a_aristas m) [] s = s from rfl]
    refine ⟨fun p hp => h3 p ((List.dropLast_sublist _).subset hp),
      fun p hp => ‹∀ p ∈ s.pasos, pasoCoherente m p› p hp,
      fun kk dd pd hmem => absurd (h3 _ hmem) (by simp [esSinCambios]),
      fun _ j hj1 hj2 => ?_⟩
    obtain ⟨p, hp, hpj⟩ := h6 j hj1 (by omega)
    exact ⟨p, hp, h3 p hp, hpj⟩
  | succ k ih =>
    intro i s hdist hik h3 h4 h5 h6
    rw [List.range'_succ, bellmanIter]
    obtain ⟨t, h1, h2, hiff, hdat⟩ := bellmanRelaja_spec i (matriz_a_aristas m)
      { s with cambio := false }
      (fun e he => by rw [show ({ s with cambio := false } : EstadoBellman).dist = s.dist from rfl, hdist]; exact aristas_snd_lt m e he)
    by_cases hc : (bellmanRelaja i (matriz_a_aristas m) { s with cambio := false }).cambio = true
    · rw [if_pos hc]
      have ht : t ≠ [] := by
        rcases hiff.mp hc with h | h
        · exact absurd h (by simp)
        · exact h
      rw [show i + (k + 1) = i + 1 + k from by omega]
      apply ih (i + 1) _ (by rw [h2]; exact hdist) (by omega)
      · intro p hp
        rw [h1] at hp
        rcases List.mem_append.mp hp with hp | hp
        · exact h3 p hp
        · obtain ⟨d2, p2, u2, v2, w2, a2, g2, hpeq, _, _⟩ := hdat p hp
          subst hpeq
          rfl
      · intro p hp
        rw [h1] at hp
        rcases List.mem_append.mp hp with hp | hp
        · obtain ⟨hp1, hp2⟩ := h4 p hp
          exact ⟨hp1, by omega⟩
        · obtain ⟨d2, p2, u2, v2, w2, a2, g2, hpeq, _, _⟩ := hdat p hp
          subst hpeq
          exact ⟨by simp [iterDe], by simp [iterDe]⟩
      · intro p hp
        rw [h1] at hp
        rcases List.mem_append.mp hp with hp | hp
        · exact h5 p hp
        · obtain ⟨d2, p2, u2, v2, w2, a2, g2, hpeq, hmem, hd2, hlk, hlt⟩ :=
            hdat p hp
          subst hpeq
          exact ⟨by omega, by omega, hmem, hd2, hlk, g2, rfl, hlt⟩
      · intro j hj1 hj2
        rcases Nat.lt_or_ge j (i + 1) with hj | hj
        · obtain ⟨p, hp, hpj⟩ := h6 j hj1 (by omega)
          exact ⟨p, by rw [h1]; exact List.mem_append_left _ hp, hpj⟩
        · obtain ⟨p, hp⟩ := List.exists_mem_of_ne_nil t ht
          obtain ⟨d2, p2, u2, v2, w2, a2, g2, hpeq, _, _⟩ := hdat p hp
          refine ⟨p, by rw [h1]; exact List.mem_append_right _ hp, ?_⟩
          subst hpeq
          simp only [iterDe]
          omega
    · rw [if_neg hc]
      have ht : t = [] := by
        by_contra hne
        exact hc (hiff.mpr (Or.inr hne))
      have hps : (bellmanRelaja i (matriz_a_aristas m) { s with cambio := false }).pasos = s.pasos := by
        rw [h1, ht, List.append_nil]
      refine ⟨?_, ?_, ?_, ?_⟩
      · intro p hp
        rw [show ({ bellmanRelaja i (matriz_a_aristas m) { s with cambio := false } with
            pasos := (bellmanRelaja i (matriz_a_aristas m) { s with cambio := false }).pasos ++
              [PasoBellman.sinCambios (i + 1)
                (bellmanRelaja i (matriz_a_aristas m) { s with cambio := false }).dist
                (bellmanRelaja i (matriz_a_aristas m) { s with cambio := false }).padre] } : EstadoBellman).pasos =
          (bellmanRelaja i (matriz_a_aristas m) { s with cambio := false }).pasos ++
            [PasoBellman.sinCambios (i + 1)
              (bellmanRelaja i (matriz_a_aristas m) { s with cambio := false }).dist
              (bellmanRelaja i (matriz_a_aristas m) { s with cambio := false }).padre] from rfl,
          hps, List.dropLast_concat] at hp
        exact h3 p hp
      · intro p hp
        rw [show ({ bellmanRelaja i (matriz_a_aristas m) { s with cambio := false } with
            pasos := (bellmanRelaja i (matriz_a_aristas m) { s with cambio := false }).pasos ++
              [PasoBellman.sinCambios (i + 1)
                (bellmanRelaja i (matriz_a_aristas m) { s with cambio := false }).dist
                (bellmanRelaja i (matriz_a_aristas m) { s with cambio := false }).padre] } : EstadoBellman).pasos =
          (bellmanRelaja i (matriz_a_aristas m) { s with cambio := false }).pasos ++
            [PasoBellman.sinCambios (i + 1)
              (bellmanRelaja i (matriz_a_aristas m) { s with cambio := false }).dist
              (bellmanRelaja i (matriz_a_aristas m) { s with cambio := false }).padre] from rfl,
          hps] at hp
        rcases List.mem_append.mp hp with hp | hp
        · exact h5 p hp
        · rw [List.mem_singleton.mp hp]
          exact ⟨by omega, by omega⟩
      · intro kk dd pd hmem
        dsimp only at hmem
        rw [hps] at hmem
        rcases List.mem_append.mp hmem with hm | hm
        · exact absurd (h3 _ hm) (by simp [esSinCambios])
        · have heq := List.mem_singleton.mp hm
          injection heq with hkk hdd hpd
          subst hkk
          constructor
          · intro p hp hflag
            dsimp only at hp
            rw [hps] at hp
            rcases List.mem_append.mp hp with hp | hp
            · have := (h4 p hp).2
              omega
            · rw [List.mem_singleton.mp hp] at hflag
              exact absurd hflag (by simp [esSinCambios])
          · intro j hj1 hj2
            obtain ⟨p, hp, hpj⟩ := h6 j hj1 (by omega)
            refine ⟨p, ?_, h3 p hp, hpj⟩
            dsimp only
            rw [hps]
            exact List.mem_append_left _ hp
      · intro hall
        have hsc := hall (PasoBellman.sinCambios (i + 1)
            (bellmanRelaja i (matriz_a_aristas m) { s with cambio := false }).dist
            (bellmanRelaja i (matriz_a_aristas m) { s with cambio := false }).padre)
          (by dsimp only; exact List.mem_append_right _ (List.mem_singleton_self _))
        exact absurd hsc (by simp [esSinCambios])

/-- C5: every emitted Bellman-Ford snapshot is a fully detailed
relajacion or the single final `sin_cambios` marker: only the last snapshot
can be `sin_cambios`; every snapshot carries a real edge of the graph with
its weight, an iteration index among the first N-1, the improved distance
reflected in the snapshot distance and parent tables, and a strictly
smaller new distance; a `sin_cambios` at iteration `kk` is emitted exactly
when iterations 1..kk-1 each relaxed something and iteration `kk` nothing,
and a run without `sin_cambios` relaxed something in all N-1 iterations. -/
theorem c5_estructura_pasos :
    ∀ (m : Matriz) (origen objetivo : Nat),
      (∀ p ∈ (bellman_ford_pasos m origen objetivo).1.dropLast,
        esSinCambios p = false) ∧
      (∀ p ∈ (bellman_ford_pasos m origen objetivo).1, pasoCoherente m p) ∧
      (∀ kk dd pd, PasoBellman.sinCambios kk dd pd ∈
          (bellman_ford_pasos m origen objetivo).1 →
        (∀ p ∈ (bellman_ford_pasos m origen objetivo).1,
          esSinCambios p = false → iterDe p < kk) ∧
        (∀ j, 1 ≤ j → j < kk →
          ∃ p ∈ (bellman_ford_pasos m origen objetivo).1,
            esSinCambios p = false ∧ iterDe p = j)) ∧
      ((∀ p ∈ (bellman_ford_pasos m origen objetivo).1,
          esSinCambios p = false) →
        ∀ j, 1 ≤ j → j ≤ nNodes m - 1 →
          ∃ p ∈ (bellman_ford_pasos m origen objetivo).1,
            esSinCambios p = false ∧ iterDe p = j) := by
  intro m origen objetivo
  have key := bellmanIter_spec m (nNodes m - 1) 0
    { dist := (((List.range (nNodes m)).map fun _ => (none : Option Int))).set
        origen (some 0),
      padre := [(origen, none)], cambio := false, pasos := [] }
    (by simp) (by omega) (by simp) (by simp) (by simp)
    (fun j hj1 hj2 => absurd hj2 (by omega))
  rw [Nat.zero_add] at key
  have hr : (bellman_ford_pasos m origen objetivo).1 =
      (bellmanIter (matriz_a_aristas m) (List.range' 0 (nNodes m - 1))
        { dist := (((List.range (nNodes m)).map fun _ => (none : Option Int))).set
            origen (some 0),
          padre := [(origen, none)], cambio := false, pasos := [] }).pasos := by
    rw [← List.range_eq_range']
    rfl
  rw [hr]
  exact key

/-- Witness for C5: on the unit triangle from node 0 the run ends with a
`sin_cambios` snapshot at iteration 2 preceded by coherent relajacion
snapshots of iteration 1; on the two-node graph the run has no
`sin_cambios` and iteration 1 relaxed an edge. -/
theorem c5_estructura_pasos_witness :
    esSinCambios ((bellman_ford_pasos grafoTri 0 1).1.dropLast.get
      ⟨0, by decide⟩) = false ∧
    pasoCoherente grafoTri ((bellman_ford_pasos grafoTri 0 1).1.get
      ⟨0, by decide⟩) ∧
    (∃ p ∈ (bellman_ford_pasos grafoTri 0 1).1,
      esSinCambios p = false ∧ iterDe p = 1) ∧
    (∃ p ∈ (bellman_ford_pasos grafoPar 0 1).1,
      esSinCambios p = false ∧ iterDe p = 1) :=
  ⟨(c5_estructura_pasos grafoTri 0 1).1 _ (List.get_mem _ _ _),
   (c5_estructura_pasos grafoTri 0 1).2.1 _ (List.get_mem _ _ _),
   ((c5_estructura_pasos grafoTri 0 1).2.2.1 2 [some 0, some 1, some 1]
     [(0, none), (1, some 0), (2, some 0)] (by decide)).2 1 (by decide)
     (by decide),
   (c5_estructura_pasos grafoPar 0 1).2.2.2 (by decide) 1 (by decide)
     (by decide)⟩

/-- On a square matrix with enough labels the edge loop of
`GrafoActivo.cargar` never goes out of range. -/
theorem cargarAristas_ok (matriz : Matriz) (nombres : List String)
    (hsq : ∀ fila ∈ matriz, fila.length = matriz.length)
    (hn : matriz.length ≤ nombres.length) :
    ∀ (ps : List (Nat × Nat)) (acc : List (String × String × Int)),
      (∀ p ∈ ps, p.1 < matriz.length ∧ p.2 < matriz.length) →
      ∃ r, cargarAristas matriz nombres ps acc = .ok r := by
  intro ps
  induction ps with
  | nil => exact fun acc _ => ⟨acc, rfl⟩
  | cons p ps ih =>
    obtain ⟨i, j⟩ := p
    intro acc hps
    obtain ⟨hi, hj⟩ := hps (i, j) (List.mem_cons_self _ _)
    rw [cargarAristas]
    cases hg : matriz.get? i with
    | none =>
      exact absurd (List.get?_eq_none.mp hg) (by omega)
    | some fila =>
      have hfl : fila.length = matriz.length :=
        hsq fila (List.get?_mem hg)
      simp only [Option.some_bind]
      cases hw : fila.get? j with
      | none =>
        exact absurd (List.get?_eq_none.mp hw) (by omega)
      | some w =>
        dsimp only
        by_cases hpos : w > 0
        · rw [if_pos hpos]
          cases ha : nombres.get? i with
          | none => exact absurd (List.get?_eq_none.mp ha) (by omega)
          | some a =>
            cases hb : nombres.get? j with
            | none => exact absurd (List.get?_eq_none.mp hb) (by omega)
            | some b =>
              dsimp only
              exact ih _ (fun q hq => hps q (List.mem_cons_of_mem _ hq))
        · rw [if_neg hpos]
          exact ih _ (fun q hq => hps q (List.mem_cons_of_mem _ hq))

/-- C8 (amended): `GrafoActivo.cargar` performs no shape validation of its
own.  On any square matrix it succeeds no matter how many labels are
supplied beyond the rows it reads, with `N` simply the number of rows; the
only ValueError comes from `np.array` rejecting a ragged (non-rectangular)
nested list, so a well-formed rectangular non-square matrix or a wrong
label count produces no error at all. -/
theorem c8_cargar_sin_validacion :
    ∀ (matriz : Matriz) (nombres : List String),
      ((∀ fila ∈ matriz, fila.length = matriz.length) →
        matriz.length ≤ nombres.length →
        ∃ g, GrafoActivo_cargar matriz nombres = .ok g ∧
          g.n = matriz.length) ∧
      ((matriz.all fun fila => fila.length = (matriz.headD []).length) =
          false →
        GrafoActivo_cargar matriz nombres = .error .valueError) := by
  intro matriz nombres
  constructor
  · intro hsq hn
    obtain ⟨r, hr⟩ := cargarAristas_ok matriz nombres hsq hn
      ((List.range matriz.length).flatMap fun i =>
        (List.range matriz.length).filterMap fun j =>
          if i < j then some (i, j) else none) []
      (by
        intro p hp
        rw [List.mem_flatMap] at hp
        obtain ⟨i, hi, hp⟩ := hp
        rw [List.mem_filterMap] at hp
        obtain ⟨j, hj, hp⟩ := hp
        by_cases hij : i < j
        · rw [if_pos hij] at hp
          cases hp
          exact ⟨List.mem_range.mp hi, List.mem_range.mp hj⟩
        · rw [if_neg hij] at hp
          cases hp)
    refine ⟨⟨matriz, nombres, matriz.length, r⟩, ?_, rfl⟩
    unfold GrafoActivo_cargar
    have hhead : (matriz.headD []).length = matriz.length := by
      match matriz, hsq with
      | [], _ => simp
      | f0 :: rest, hsq =>
        simp only [List.headD_cons]
        exact hsq f0 (List.mem_cons_self _ _)
    rw [if_pos (by
      rw [List.all_eq_true]
      intro fila hf
      simp only [decide_eq_true_eq]
      rw [hhead]
      exact hsq fila hf), hr]
  · intro hall
    unfold GrafoActivo_cargar
    rw [if_neg (by rw [hall]; exact Bool.false_ne_true)]

/-- Witness for C8 (amended): the unit triangle with exactly matching
labels loads, and a ragged two-row list is rejected as a ValueError. -/
theorem c8_cargar_sin_validacion_witness :
    (∃ g, GrafoActivo_cargar grafoTri ["A", "B", "C"] = .ok g ∧
      g.n = grafoTri.length) ∧
    GrafoActivo_cargar [[0, 1], [0]] [] = .error .valueError :=
  ⟨(c8_cargar_sin_validacion grafoTri ["A", "B", "C"]).1 (by decide)
    (by decide),
   (c8_cargar_sin_validacion [[0, 1], [0]] []).2 (by decide)⟩

/-- Python indexing fails outside `[-n, n)`. -/
theorem idxPy_none (n : Nat) (i : Int) (h : (n : Int) ≤ i ∨ i < -(n : Int)) :
    idxPy n i = none := by
  unfold idxPy
  rw [if_neg (by omega), if_neg (by omega)]

/-- Python indexing succeeds on `[-n, n)`, wrapping negatives. -/
theorem idxPy_some (n : Nat) (i : Int) (h1 : -(n : Int) ≤ i)
    (h2 : i < (n : Int)) : ∃ ui, idxPy n i = some ui := by
  unfold idxPy
  by_cases hp : 0 ≤ i ∧ i < (n : Int)
  · rw [if_pos hp]
    exact ⟨_, rfl⟩
  · rw [if_neg hp, if_pos (by omega)]
    exact ⟨_, rfl⟩

/-- The neighbour loop raises IndexError on its first iteration when the
dequeued value is out of range. -/
theorem bfsVecinosI_error (m : Matriz) (u : Int)
    (hidx : idxPy (nNodes m) u = none) :
    ∀ (vs : List Nat) (s : EstadoBfsI), vs ≠ [] →
      bfsVecinosI m u vs s = .error .indexError := by
  intro vs s hne
  cases vs with
  | nil => exact absurd rfl hne
  | cons v vs =>
    rw [bfsVecinosI, hidx]

/-- The neighbour loop succeeds when the dequeued value indexes a row,
and every value it enqueues is again in Python range. -/
theorem bfsVecinosI_ok (m : Matriz) (u : Int) (ui : Nat)
    (hu : idxPy (nNodes m) u = some ui) :
    ∀ (vs : List Nat) (s : EstadoBfsI), (∀ x ∈ vs, x < nNodes m) →
      (∀ x ∈ s.cola, -(nNodes m : Int) ≤ x ∧ x < (nNodes m : Int)) →
      ∃ s2, bfsVecinosI m u vs s = .ok s2 ∧
        ∀ x ∈ s2.cola, -(nNodes m : Int) ≤ x ∧ x < (nNodes m : Int) := by
  intro vs
  induction vs with
  | nil => exact fun s _ hcola => ⟨s, rfl, hcola⟩
  | cons v vs ih =>
    intro s hvs hcola
    rw [bfsVecinosI, hu]
    dsimp only
    by_cases hg : wt m ui v > 0 ∧ (v : Int) ∉ s.visitado
    · rw [if_pos hg]
      apply ih _ (fun x hx => hvs x (List.mem_cons_of_mem _ hx))
      intro x hx
      rcases List.mem_append.mp hx with hx | hx
      · exact hcola x hx
      · rw [List.mem_singleton.mp hx]
        have := hvs v (List.mem_cons_self _ _)
        constructor
        · have : (0 : Int) ≤ (v : Int) := Int.ofNat_nonneg v
          omega
        · exact_mod_cast this
    · rw [if_neg hg]
      exact ih _ (fun x hx => hvs x (List.mem_cons_of_mem _ hx)) hcola

/-- The BFS loop never raises while every queued value is in Python
range. -/
theorem bfsLoopI_ok (m : Matriz) :
    ∀ (fuel : Nat) (s : EstadoBfsI),
      (∀ x ∈ s.cola, -(nNodes m : Int) ≤ x ∧ x < (nNodes m : Int)) →
      ∃ s2, bfsLoopI m fuel s = .ok s2 := by
  intro fuel
  induction fuel with
  | zero => exact fun s _ => ⟨s, rfl⟩
  | succ fuel ih =>
    intro s hcola
    rw [bfsLoopI]
    cases hq : s.cola with
    | nil => exact ⟨s, rfl⟩
    | cons u resto =>
      have hu := hcola u (by rw [hq]; exact List.mem_cons_self _ _)
      have hresto : ∀ x ∈ resto, -(nNodes m : Int) ≤ x ∧ x < (nNodes m : Int) :=
        fun x hx => hcola x (by rw [hq]; exact List.mem_cons_of_mem _ hx)
      dsimp only
      by_cases hv : u ∈ s.visitado
      · rw [if_pos hv]
        exact ih _ hresto
      · rw [if_neg hv]
        obtain ⟨ui, hui⟩ := idxPy_some (nNodes m) u hu.1 hu.2
        obtain ⟨s2, hs2, hs2cola⟩ := bfsVecinosI_ok m u ui hui
          (List.range (nNodes m))
          { visitado := s.visitado ++ [u], cola := resto, padre := s.padre,
            pasos := s.pasos ++ [⟨u, s.visitado ++ [u], s.padre⟩] }
          (fun x hx => List.mem_range.mp hx) hresto
        rw [hs2]
        exact ih s2 hs2cola

/-- C9 (amended): a start index at or beyond `N`, or below `-N`, makes
`bfs_pasos` raise IndexError (on the first neighbour read of the start
node, not at call time) and the caller receives no steps; but a negative
start index in `[-N, 0)` is accepted by Python wraparound indexing, so the
run completes and returns steps instead of failing. -/
theorem c9_indice_inicial :
    ∀ (m : Matriz) (inicio : Int),
      (0 < nNodes m →
        ((nNodes m : Int) ≤ inicio ∨ inicio < -(nNodes m : Int)) →
        bfs_pasos_idx m inicio = .error .indexError) ∧
      (-(nNodes m : Int) ≤ inicio → inicio < (nNodes m : Int) →
        ∃ ps, bfs_pasos_idx m inicio = .ok ps) := by
  intro m inicio
  constructor
  · intro hn hout
    unfold bfs_pasos_idx
    rw [show nNodes m * nNodes m + nNodes m + 2 =
      (nNodes m * nNodes m + nNodes m + 1) + 1 from rfl]
    rw [bfsLoopI]
    dsimp only
    rw [if_neg (List.not_mem_nil _)]
    rw [bfsVecinosI_error m inicio (idxPy_none _ _ hout) _ _
      (by
        have : nNodes m - 1 < nNodes m := by omega
        exact List.ne_nil_of_mem (List.mem_range.mpr this))]
  · intro h1 h2
    unfold bfs_pasos_idx
    obtain ⟨s2, hs2⟩ := bfsLoopI_ok m (nNodes m * nNodes m + nNodes m + 2)
      { visitado := [], cola := [inicio], padre := [(inicio, none)],
        pasos := [] }
      (by
        intro x hx
        rw [List.mem_singleton.mp hx]
        exact ⟨h1, h2⟩)
    rw [hs2]
    exact ⟨s2.pasos, rfl⟩

/-- Witness for C9 (amended) on the one-node graph: start 1 raises
IndexError, start -1 succeeds. -/
theorem c9_indice_inicial_witness :
    bfs_pasos_idx [[0]] 1 = .error .indexError ∧
    (∃ ps, bfs_pasos_idx [[0]] (-1) = .ok ps) :=
  ⟨(c9_indice_inicial [[0]] 1).1 (by decide) (by decide),
   (c9_indice_inicial [[0]] (-1)).2 (by decide) (by decide)⟩

/-- A successful monadic bind factors through a successful first
action. -/
theorem exceptBind_ok {ε α β : Type} (e : Except ε α) (f : α → Except ε β)
    (b : β) (h : e >>= f = .ok b) : ∃ a, e = .ok a ∧ f a = .ok b := by
  cases e with
  | error err => exact absurd h (by simp [Bind.bind, Except.bind])
  | ok a => exact ⟨a, rfl, by simpa [Bind.bind, Except.bind] using h⟩

/-- Every successful return of the try-body of `cargar_desde_json` is a
full `(matriz, nombres, None)` triple. -/
theorem cuerpoJson_forma (data : JValue) (r : SalidaJson)
    (h : cuerpoJson data = .ok r) : formaSalida r := by
  unfold cuerpoJson at h
  obtain ⟨tm, _, h⟩ := exceptBind_ok _ _ _ h
  split at h
  · obtain ⟨v, _, h⟩ := exceptBind_ok _ _ _ h
    dsimp only at h
    split at h
    · simp [Bind.bind, Except.bind] at h
    · simp only [Bind.bind, Except.bind] at h
      repeat' split at h
      all_goals first
        | exact Except.noConfusion h
        | (injection h with h; rw [← h]; exact trivial)
  · obtain ⟨ta, _, h⟩ := exceptBind_ok _ _ _ h
    split at h
    · obtain ⟨va, _, h⟩ := exceptBind_ok _ _ _ h
      dsimp only at h
      split at h
      · simp [Bind.bind, Except.bind] at h
      · simp only [Bind.bind, Except.bind] at h
        repeat' split at h
        all_goals first
          | exact Except.noConfusion h
          | (injection h with h; rw [← h]; exact trivial)
    · injection h with h
      rw [← h]
      exact trivial

/-- C10: `cargar_desde_json` is total and shape-correct on every file:
whatever the file content, it returns either a full success triple
`(matriz, nombres, None)` or a pure error triple `(None, None, mensaje)`,
never a partial result. -/
theorem c10_forma_total : ∀ archivo : ArchivoJson,
    formaSalida (cargar_desde_json archivo) := by
  intro archivo
  cases archivo with
  | noEncontrado => exact trivial
  | jsonInvalido => exact trivial
  | contenido data =>
    unfold cargar_desde_json
    dsimp only
    cases hc : cuerpoJson data with
    | ok r =>
      dsimp only
      exact cuerpoJson_forma data r hc
    | error e => exact trivial
